import Mathlib

/-!
# BannerBoard — formal model of the core server and control logic

Shallow embedding of the BannerBoard sources:
* the entry-document serving endpoint (`GET` in the preview route),
* the upload/ingestion route (`findHtmlFile`, `getAdSize`, `injectScreenshotScript`, `POST`),
* the injected control agent (discovery polling, pending-command queueing, dispatch),
* the host-side group controls (`findLargestGroupId`, readiness gating, hard reload),
* the delegated screenshot capture (`getBannerDataUri`).

Every definition is translated from the TypeScript/JavaScript source; JS runtime
behaviours (regex matching, `String.prototype.replace`/`startsWith`, `path.join`
normalization, object-key enumeration order) are modelled explicitly.

The file is organised as: all definitions first, then helper lemmas and the
claim theorems.
-/

namespace BannerBoard

/-! ## String helpers (JS semantics)

`strStartsWith p s` models JS `s.startsWith(p)`: `p` is a prefix of `s`,
character by character.  `strEndsWith suf s` models the `$`-anchored suffix
test of a regex such as `/\.html?$/`. -/

def strStartsWith (p s : String) : Bool :=
  p.data.isPrefixOf s.data

def strEndsWith (suf s : String) : Bool :=
  suf.data.isSuffixOf s.data

/-! ## Entry-document serving endpoint

Source: the preview file-serving route (`GET`).  The route computes
`tempDir = path.join(os.tmpdir(), 'bannerboard-previews', bannerId)` and
`absoluteFilePath = path.join(tempDir, filePath)` and rejects with 403 when
`!absoluteFilePath.startsWith(tempDir)`; otherwise it reads the file
(404 when missing).  We model Node's POSIX `path.join` by segment
concatenation followed by normalization: empty and `.` segments are dropped
and `..` pops the previous segment (the base path is absolute, so `..`
above the root is discarded, as `path.join` does for absolute paths).
`os.tmpdir()` is modelled as `/tmp`. -/

def normStep (acc : List String) (seg : String) : List String :=
  if seg = "" ∨ seg = "." then acc
  else if seg = ".." then acc.dropLast
  else acc ++ [seg]

def normSegs (segs : List String) : List String :=
  segs.foldl normStep []

def renderPath (segs : List String) : String :=
  "/" ++ String.intercalate "/" segs

/-- Result of the serving endpoint, up to filesystem access: `read p` means the
route proceeds to `fs.readFile(p)` and serves the contents (404 only if the
file is missing). -/
inductive ServeResult
  | badRequest
  | forbidden
  | read (absolutePath : String)
  deriving DecidableEq, Repr

/-- The `GET` handler of the preview route.  `slug` is the URL slug array:
its head is the `bannerId`, the remainder joined with `/` is the relative
file path. -/
def serveGET (slug : List String) : ServeResult :=
  match slug with
  | [] => .badRequest
  | bannerId :: rest =>
    let filePath := String.intercalate "/" rest
    if bannerId = "" ∨ filePath = "" then .badRequest
    else
      let tempSegs := ["tmp", "bannerboard-previews", bannerId]
      let absSegs := normSegs (tempSegs ++ rest)
      if strStartsWith (renderPath tempSegs) (renderPath absSegs) then
        .read (renderPath absSegs)
      else .forbidden

/-- The resolved path stays inside the creative's id-scoped storage root:
the root's segments are a segment-wise prefix of the resolved segments. -/
def insideScope (bannerId : String) (resolved : List String) : Bool :=
  List.isPrefixOf ["tmp", "bannerboard-previews", bannerId] resolved

/-! ## Ingestion: entry discovery (`findHtmlFile` in the upload route)

The route lists the extracted directory with `fs.readdir(dir, {withFileTypes:
true})`, first `find`s a file named exactly `index.html`, then any file whose
name matches `/\.html?$/`, then scans each subdirectory (one level deep, in
listing order) for the first file matching the same regex, returning
`path.join(entry.name, htmlInSubDir.name)`. -/

inductive FsEntry
  | file (name : String)
  | dir (name : String) (entries : List FsEntry)

def FsEntry.entryName : FsEntry → String
  | .file n => n
  | .dir n _ => n

def FsEntry.isAFile : FsEntry → Bool
  | .file _ => true
  | .dir _ _ => false

/-- JS regex `/\.html?$/`: the name ends with `.htm` or with `.html`. -/
def isHtmlName (n : String) : Bool :=
  strEndsWith ".htm" n || strEndsWith ".html" n

/-- `subEntries.find(e => e.isFile() && /\.html?$/.test(e.name))`. -/
def findHtmlInSub (entries : List FsEntry) : Option String :=
  (entries.find? (fun e => e.isAFile && isHtmlName e.entryName)).map
    (fun e => e.entryName)

/-- What one iteration of the subdirectory loop yields for one root entry:
nothing for a plain file, the joined relative path for a directory whose
listing contains an HTML file. -/
def subScan : FsEntry → Option String
  | .file _ => none
  | .dir dn sub => (findHtmlInSub sub).map (fun n => dn ++ "/" ++ n)

/-- `findHtmlFile` from the upload route. -/
def findHtmlFile (entries : List FsEntry) : Option String :=
  match entries.find? (fun e => e.isAFile && e.entryName == "index.html") with
  | some e => some e.entryName
  | none =>
    match entries.find? (fun e => e.isAFile && isHtmlName e.entryName) with
    | some e => some e.entryName
    | none => entries.findSome? subScan

/-! ## Ingestion: dimension detection (`getAdSize` in the upload route)

The route matches three JS regexes against the entry document:
* `/<meta\s+name=["']ad.size["']\s+content=["']width=(\d+),\s*height=(\d+)["']\s*\/?>/`
  — note the **unescaped dot** in `ad.size`, which matches any single
  non-line-terminator character;
* `/<meta\s+name=["']authoring_tool["']\s+content=["']Adobe_Animate_CC["']/` (a `test`);
* `/<canvas\s+.*?width=["'](\d+)["']\s+height=["'](\d+)["']/`.

We model JS regex search: leftmost match wins; `\s+`/`\s*`/`\d+` are greedy
with backtracking and `.*?` is lazy.  In the first and second patterns every
quantified class is followed by a literal outside the class, so greedy
maximal munch is exact; the third pattern needs real backtracking between
`\s+` and `.*?`, modelled by `tryWsFrom` (longest `\s+` first) and
`lazyDots` (shortest `.*?` first), exactly the JS engine's order.
Character classes: `\s` is modelled by its ASCII members plus NBSP and BOM,
`\d` is `[0-9]`, `.` is any character except the line terminators. -/

def jsWs (c : Char) : Bool :=
  c = ' ' || c = '\t' || c = '\n' || c = '\r' ||
  c = Char.ofNat 0x0B || c = Char.ofNat 0x0C ||
  c = Char.ofNat 0xA0 || c = Char.ofNat 0xFEFF

def jsDot (c : Char) : Bool :=
  !(c = '\n' || c = '\r' || c = Char.ofNat 0x2028 || c = Char.ofNat 0x2029)

def isQuote (c : Char) : Bool :=
  c = '"' || c = '\''

/-- Consume an exact literal, returning the remaining input. -/
def eatLit : List Char → List Char → Option (List Char)
  | [], cs => some cs
  | _ :: _, [] => none
  | p :: ps, c :: cs => if c = p then eatLit ps cs else none

/-- Consume exactly one character of a class. -/
def eatOne (p : Char → Bool) : List Char → Option (List Char)
  | [] => none
  | c :: cs => if p c then some cs else none

/-- Maximal munch of a class (`\s*`-style). -/
def eatStar (p : Char → Bool) : List Char → List Char
  | [] => []
  | c :: cs => if p c then eatStar p cs else c :: cs

/-- At least one character of a class, maximal munch (`\s+`-style). -/
def eatPlus (p : Char → Bool) : List Char → Option (List Char)
  | [] => none
  | c :: cs => if p c then some (eatStar p cs) else none

def digitsLoop : List Char → Nat → Nat × List Char
  | [], acc => (acc, [])
  | c :: cs, acc =>
    if c.isDigit then digitsLoop cs (acc * 10 + (c.toNat - 48)) else (acc, c :: cs)

/-- `(\d+)` with maximal munch, returning the captured decimal value
(the route applies `parseInt(capture, 10)`). -/
def eatDigitsPlus : List Char → Option (Nat × List Char)
  | [] => none
  | c :: cs => if c.isDigit then some (digitsLoop cs (c.toNat - 48)) else none

/-- A character class of the modelled regexes. -/
inductive Cls
  | ws
  | dot
  | quote

def Cls.check : Cls → Char → Bool
  | .ws => jsWs
  | .dot => jsDot
  | .quote => isQuote

/-- One deterministic regex token: a literal, a single class character
(`["']`, the unescaped `.`), maximal-munch `\s*` / `\s+`, or an optional
literal (`\/?`). -/
inductive Tok
  | lit (s : String)
  | one (k : Cls)
  | star (k : Cls)
  | plus (k : Cls)
  | opt (s : String)

def eatTok : Tok → List Char → Option (List Char)
  | .lit s, cs => eatLit s.data cs
  | .one k, cs => eatOne k.check cs
  | .star k, cs => some (eatStar k.check cs)
  | .plus k, cs => eatPlus k.check cs
  | .opt s, cs => some ((eatLit s.data cs).getD cs)

def eatToks : List Tok → List Char → Option (List Char)
  | [], cs => some cs
  | t :: ts, cs =>
    match eatTok t cs with
    | some r => eatToks ts r
    | none => none

/-- `<meta\s+name=["']ad.size["']\s+content=["']width=` — everything of the
meta regex before the first capture.  The `.one .dot` is the regex's
**unescaped dot** between `ad` and `size`. -/
def metaToksA : List Tok :=
  [.lit "<meta", .plus .ws, .lit "name=", .one .quote,
   .lit "ad", .one .dot, .lit "size", .one .quote,
   .plus .ws, .lit "content=", .one .quote, .lit "width="]

/-- `,\s*height=` — between the two captures. -/
def metaToksB : List Tok :=
  [.lit ",", .star .ws, .lit "height="]

/-- `["']\s*\/?>` — after the second capture. -/
def metaToksC : List Tok :=
  [.one .quote, .star .ws, .opt "/", .lit ">"]

/-- The `ad.size` meta regex, attempted at one position. -/
def matchMetaAt (cs : List Char) : Option (Nat × Nat) :=
  (eatToks metaToksA cs).bind fun r =>
  (eatDigitsPlus r).bind fun wr =>
  (eatToks metaToksB wr.2).bind fun r2 =>
  (eatDigitsPlus r2).bind fun hr =>
  (eatToks metaToksC hr.2).map fun _ => (wr.1, hr.1)

/-- Leftmost-match search: try the matcher at each position, left to right. -/
def scanFor {α : Type} (m : List Char → Option α) : List Char → Option α
  | [] => m []
  | c :: cs =>
    match m (c :: cs) with
    | some r => some r
    | none => scanFor m cs

def findMeta (cs : List Char) : Option (Nat × Nat) :=
  scanFor matchMetaAt cs

/-- The Adobe Animate authoring-tool signature regex
`<meta\s+name=["']authoring_tool["']\s+content=["']Adobe_Animate_CC["']`,
attempted at one position. -/
def matchAdobeAt (cs : List Char) : Option (List Char) :=
  eatToks
    [.lit "<meta", .plus .ws, .lit "name=", .one .quote,
     .lit "authoring_tool", .one .quote,
     .plus .ws, .lit "content=", .one .quote,
     .lit "Adobe_Animate_CC", .one .quote] cs

def testAdobe (cs : List Char) : Bool :=
  (scanFor matchAdobeAt cs).isSome

/-- The deterministic tail of the canvas regex after `.*?`:
`width=["'](\d+)["']\s+height=["'](\d+)["']`. -/
def matchCanvasTail (cs : List Char) : Option (Nat × Nat) :=
  (eatToks [.lit "width=", .one .quote] cs).bind fun r =>
  (eatDigitsPlus r).bind fun wr =>
  (eatToks [.one .quote, .plus .ws, .lit "height=", .one .quote] wr.2).bind fun r2 =>
  (eatDigitsPlus r2).bind fun hr =>
  (eatToks [.one .quote] hr.2).map fun _ => (wr.1, hr.1)

/-- Lazy `.*?` before the canvas tail: try the tail here first, then skip one
non-line-terminator character and retry. -/
def lazyDots : List Char → Option (Nat × Nat)
  | [] => matchCanvasTail []
  | c :: rest =>
    match matchCanvasTail (c :: rest) with
    | some r => some r
    | none => if jsDot c then lazyDots rest else none

/-- Greedy `\s+` with backtracking: try consuming `k` whitespace characters,
longest first, down to one. -/
def tryWsFrom (cs : List Char) : Nat → Option (Nat × Nat)
  | 0 => none
  | Nat.succ k =>
    match lazyDots (cs.drop (Nat.succ k)) with
    | some r => some r
    | none => tryWsFrom cs k

def wsCount : List Char → Nat
  | [] => 0
  | c :: cs => if jsWs c then wsCount cs + 1 else 0

/-- The canvas regex attempted at one position. -/
def matchCanvasAt (cs : List Char) : Option (Nat × Nat) := do
  let r ← eatLit "<canvas".data cs
  tryWsFrom r (wsCount r)

def findCanvas (cs : List Char) : Option (Nat × Nat) :=
  scanFor matchCanvasAt cs

/-- `getAdSize` from the upload route: the meta regex first, then — only when
the document carries the Adobe Animate signature — the canvas regex;
otherwise `null` (surfaced by `POST` as the dimensions-undetectable
400 error). -/
def getAdSize (html : String) : Option (Nat × Nat) :=
  match findMeta html.data with
  | some wh => some wh
  | none => if testAdobe html.data then findCanvas html.data else none

/-- Written from the spec's words, for comparison with the code's matcher:
the prefix of a literal `<meta name="ad.size" content="width=…` tag, the dot
in `ad.size` being the actual character `.` (the spec names the tag
literally).  Identical to `metaToksA` except at the wildcard position. -/
def specToksA : List Tok :=
  [.lit "<meta", .plus .ws, .lit "name=", .one .quote,
   .lit "ad", .lit ".", .lit "size", .one .quote,
   .plus .ws, .lit "content=", .one .quote, .lit "width="]

/-- A literal `ad.size` meta tag, attempted at one position:
`specToksA`, then the same captures and tail as the code's matcher. -/
def specAdSizeTagAt (cs : List Char) : Option (Nat × Nat) :=
  (eatToks specToksA cs).bind fun r =>
  (eatDigitsPlus r).bind fun wr =>
  (eatToks metaToksB wr.2).bind fun r2 =>
  (eatDigitsPlus r2).bind fun hr =>
  (eatToks metaToksC hr.2).map fun _ => (wr.1, hr.1)

def specHasAdSizeTag (cs : List Char) : Bool :=
  (scanFor specAdSizeTagAt cs).isSome

/-! ## Ingestion: agent injection and the `POST` handler

`injectScreenshotScript` reads the entry document and runs
`htmlContent.replace('</head>', finalScript + '</head>')`.  JS
`String.prototype.replace` with a *string* pattern replaces only the **first**
occurrence, and returns the input unchanged when the pattern does not occur.
(The replacement string built from the agent template contains no `$`, so JS
replacement-pattern expansion does not arise.) -/

def containsSub (pat : List Char) : List Char → Bool
  | [] => pat.isEmpty
  | c :: cs => pat.isPrefixOf (c :: cs) || containsSub pat cs

def replaceFirst (pat repl : List Char) : List Char → List Char
  | [] => []
  | c :: cs =>
    if pat.isPrefixOf (c :: cs) then repl ++ (c :: cs).drop pat.length
    else c :: replaceFirst pat repl cs

/-- `injectScreenshotScript`, abstracting the templated agent text as
`script` (the source substitutes the banner and group ids into a fixed
template; its exact text is irrelevant to the splice). -/
def injectScreenshotScript (script html : String) : String :=
  ⟨replaceFirst "</head>".data (script.data ++ "</head>".data) html.data⟩

/-- Outcome of the upload `POST` handler, up to I/O: the three 400 responses
and the success JSON.  `storedDoc` is the entry document as written back to
storage after the injection step. -/
inductive PostOutcome
  | missingField
  | noHtml
  | noDims
  | ok (url : String) (width height : Nat) (storedDoc : String)

/-- The upload `POST` handler: require `file` and `groupId`, extract (modelled
by `entries` and `contentOf`, the content of the chosen entry document),
discover the entry, detect dimensions, inject the agent, and answer with the
preview URL and the dimensions. -/
def uploadPOST (hasFile hasGroupId : Bool) (entries : List FsEntry)
    (contentOf : String → String) (script bannerId : String) : PostOutcome :=
  if ¬(hasFile ∧ hasGroupId) then .missingField
  else
    match findHtmlFile entries with
    | none => .noHtml
    | some htmlFile =>
      match getAdSize (contentOf htmlFile) with
      | none => .noDims
      | some wh =>
        .ok ("/api/preview/" ++ bannerId ++ "/" ++ htmlFile) wh.1 wh.2
          (injectScreenshotScript script (contentOf htmlFile))

/-! ## Host data model and group controls

`Banner` from the shared types module (`id`, `url`, `width`, `height`,
`round`, `version`, optional `groupId`, optional render `key`).  The ReadySet
is the host's `readyBanners : Set<string>`, modelled as a `Finset`. -/

structure Banner where
  id : String
  url : String
  width : Nat
  height : Nat
  round : Nat
  version : Nat
  groupId : Option String := none
  key : Option String := none
  deriving DecidableEq, Repr

/-! `findLargestGroupId` (global controls component): a `reduce` builds a
plain JS object mapping each truthy `groupId` to its member count, then a
`for…in` loop keeps the first key whose count strictly exceeds the running
maximum.  A JS object enumerates non-integer-index string keys in
first-insertion order, which is how the app's group ids (always UUIDs,
which are never integer-like and never empty) are enumerated; we model the
object as an association list in insertion order — an existing key is
updated in place, a new key is appended.  `if (banner.groupId)` is JS
truthiness: the empty string counts as absent. -/

def incrGroup (acc : List (String × Nat)) (g : String) : List (String × Nat) :=
  if acc.any (fun p => p.1 == g) then
    acc.map (fun p => if p.1 == g then (p.1, p.2 + 1) else p)
  else acc ++ [(g, 1)]

def countStep (acc : List (String × Nat)) (b : Banner) : List (String × Nat) :=
  match b.groupId with
  | some g => if g = "" then acc else incrGroup acc g
  | none => acc

def groupCounts (banners : List Banner) : List (String × Nat) :=
  banners.foldl countStep []

def pickStep (best : Option String × Nat) (p : String × Nat) : Option String × Nat :=
  if p.2 > best.2 then (some p.1, p.2) else best

def findLargestGroupId (banners : List Banner) : Option String :=
  match banners with
  | [] => none
  | _ :: _ => ((groupCounts banners).foldl pickStep (none, 0)).1

/-- Number of members of group `g` (spec-side). -/
def groupCount (banners : List Banner) (g : String) : Nat :=
  (banners.filter (fun b => b.groupId == some g)).length

/-- Index of the first member of group `g` (spec-side; list length when no
member exists). -/
def firstIdx (banners : List Banner) (g : String) : Nat :=
  banners.findIdx (fun b => b.groupId == some g)

/-- `groupBanners.every(b => readyBanners.has(b.id))` for the given group. -/
def allInGroupReady (banners : List Banner) (ready : Finset String)
    (gid : String) : Bool :=
  (banners.filter (fun b => b.groupId == some gid)).all
    (fun b => decide (b.id ∈ ready))

/-- `handleGlobalAction` of the global controls component: with no largest
group the component renders nothing (no broadcast is possible); otherwise the
action is dropped when some group member is not ready — **unless** it is
`global-restart` — and is otherwise broadcast to every creative context
tagged with the group id. -/
def handleGlobalAction (banners : List Banner) (ready : Finset String)
    (action : String) : Option (String × String) :=
  match findLargestGroupId banners with
  | none => none
  | some gid =>
    if ¬ allInGroupReady banners ready gid = true ∧ action ≠ "global-restart"
    then none
    else some (action, gid)

/-- `handleHardReload`: calls `onReloadGroup(largestGroupId)` whenever a
largest group exists, with no readiness check. -/
def handleHardReload (banners : List Banner) : Option String :=
  findLargestGroupId banners

/-! ## Hard reload (`handleReloadGroup` in the banner board)

Members of the target group get a fresh render key (`uuidv4()` per member,
modelled by the supply `fresh` indexed by position) and are removed from the
ReadySet; everything else is untouched. -/

def reloadBanners (gid : String) (fresh : Nat → String) :
    Nat → List Banner → List Banner
  | _, [] => []
  | i, b :: rest =>
    (if b.groupId = some gid then { b with key := some (fresh i) } else b)
      :: reloadBanners gid fresh (i + 1) rest

def reloadReady (gid : String) (banners : List Banner)
    (ready : Finset String) : Finset String :=
  banners.foldl (fun r b => if b.groupId = some gid then r.erase b.id else r) ready

def handleReloadGroup (gid : String) (fresh : Nat → String)
    (banners : List Banner) (ready : Finset String) :
    List Banner × Finset String :=
  (reloadBanners gid fresh 0 banners, reloadReady gid banners ready)

/-! ## Control agent (the polling `INJECTED_SCRIPT`)

The agent keeps three mutable variables: `masterTimeline` (set once, at
first discovery — modelled by `discovered`), `lastReceivedAction` (the
one-slot pending command — `pending`) and the poll interval handle
(`pollActive`).  `findMasterTimeline` recomputes the handle fresh from the
globals each call (modelled by the `avail` flag each event carries: whether
the animation-runtime globals currently expose a timeline); the first time a
handle is found it stops the interval, pauses the timeline, posts the
`bannerReady` event carrying this creative's id, replays the pending
command, and clears the slot **after** the replay returns.  `handleAction`
queues the command into the one-slot variable whenever no handle is
available — the slot stores only `{action, bannerId, groupId}`, the
message's `width`/`height` are dropped — and otherwise dispatches:
individual commands are answered only when the command's `bannerId` equals
this agent's id, group commands only when its `groupId` is truthy and
equals this agent's group id.

The capture branch does not use its arguments for the size: it reads
`window.event.data` — the data of the event currently being dispatched.
We model that ambient event by the `cur` parameter: `some m` inside the
message listener (where `window.event` is the triggering message event,
`m` its data) and `none` inside a poll-interval tick (where `window.event`
is undefined, so the property read throws a TypeError before `html2canvas`
runs).  Dispatch therefore returns the state paired with a flag recording
whether it threw; a throw during the replay propagates, skipping the
`lastReceivedAction = null` that follows the replay, so the slot is never
cleared.  The `html2canvas` launch itself is asynchronous; its later result
message is outside this model.

`dispatched` records each command whose dispatch body was entered, and
`out` records the emitted effects in order. -/

/-- A control-channel message as delivered to the listener (`event.data`):
the dispatch fields plus the capture parameters. -/
structure CmdMsg where
  action : Option String := none
  bannerId : Option String := none
  groupId : Option String := none
  width : Option Nat := none
  height : Option Nat := none
  deriving DecidableEq, Repr

/-- What the one-slot queue stores (`lastReceivedAction = { action,
bannerId, groupId }`): the three dispatch fields only. -/
structure Cmd where
  action : String
  bannerId : Option String := none
  groupId : Option String := none
  deriving DecidableEq, Repr

/-- The stored triple of a message (meaningful when `action` is present). -/
def CmdMsg.toCmd (m : CmdMsg) : Cmd :=
  ⟨m.action.getD "", m.bannerId, m.groupId⟩

inductive AgentOp
  | mtPause
  | mtPlay
  | mtPlayFrom0
  | postReady (bannerId : String)
  | postPlayPause (bannerId : String) (isPlaying : Bool)
  | startCapture (bannerId : String) (width height : Option Nat)
  deriving DecidableEq, Repr

structure AgentState where
  discovered : Bool := false
  pending : Option Cmd := none
  pollActive : Bool := true
  dispatched : List Cmd := []
  out : List AgentOp := []
  deriving DecidableEq, Repr

/-- Does this command hit the capture branch: it addresses this agent and
its action is one of the two capture actions. -/
def isCaptureCmd (BID : String) (c : Cmd) : Bool :=
  (c.bannerId == some BID)
    && (c.action == "captureScreenshot" || c.action == "captureScreenshotForAI")

/-- The non-capture effects of the individual-command block. -/
def indivOps (BID : String) (c : Cmd) : List AgentOp :=
  if c.bannerId = some BID then
    if c.action = "play" then [.mtPlay, .postPlayPause BID true]
    else if c.action = "pause" then [.mtPause, .postPlayPause BID false]
    else []
  else []

/-- The effects of the group block. -/
def groupOps (GID : String) (c : Cmd) : List AgentOp :=
  if c.groupId = some GID ∧ GID ≠ "" then
    if c.action = "global-play" then [.mtPlay]
    else if c.action = "global-pause" then [.mtPause]
    else if c.action = "global-restart" then [.mtPlayFrom0]
    else []
  else []

/-- The dispatch body of `handleAction`, reached only with a timeline in
hand.  `cur` is the ambient `window.event` data.  In the capture branch the
size comes from `cur`, not from `c`; with no ambient event the
`window.event.data` read throws (second component `true`) before any
effect, skipping the rest of the body. -/
def execCmd (BID GID : String) (cur : Option CmdMsg) (c : Cmd)
    (s : AgentState) : AgentState × Bool :=
  let s1 := { s with dispatched := s.dispatched ++ [c] }
  if isCaptureCmd BID c then
    match cur with
    | none => (s1, true)
    | some m =>
      ({ s1 with
         out := s1.out ++ [.startCapture BID m.width m.height] ++ groupOps GID c },
       false)
  else
    ({ s1 with out := s1.out ++ indivOps BID c ++ groupOps GID c }, false)

/-- `findMasterTimeline`'s side effects: when a handle is available and none
was recorded yet, record it, stop the interval, pause, post `bannerReady`,
and replay the pending command (the replayed `handleAction` re-resolves the
handle, finds it, and goes straight to dispatch).  The slot is cleared only
when the replay returns normally: a throw skips `lastReceivedAction = null`
and propagates. -/
def discoverNow (BID GID : String) (cur : Option CmdMsg) (avail : Bool)
    (s : AgentState) : AgentState × Bool :=
  if avail ∧ s.discovered = false then
    let s1 := { s with
                discovered := true
                pollActive := false
                out := s.out ++ [.mtPause, .postReady BID] }
    match s.pending with
    | some c =>
      match execCmd BID GID cur c s1 with
      | (s2, true) => (s2, true)
      | (s2, false) => ({ s2 with pending := none }, false)
    | none => (s1, false)
  else (s, false)

/-- `handleAction`: re-resolve the timeline (running any first-discovery
effects; a throw from the replay propagates out, skipping the rest), then
queue when no handle exists, else dispatch. -/
def handleAction (BID GID : String) (cur : Option CmdMsg) (avail : Bool)
    (c : Cmd) (s : AgentState) : AgentState × Bool :=
  match discoverNow BID GID cur avail s with
  | (s1, true) => (s1, true)
  | (s1, false) =>
    if avail then execCmd BID GID cur c s1
    else ({ s1 with pending := some c }, false)

inductive AgentEvent
  | msg (avail : Bool) (m : CmdMsg)
  | poll (avail : Bool)

/-- One scheduler step of the agent: a `message` event (dropped when the
`action` field is missing or falsy; inside the listener `window.event` is
this very event) or one tick of the 100ms poll interval (no ambient event;
nothing at all once the interval is cleared).  An uncaught throw ends the
step with no further effect. -/
def agentStep (BID GID : String) (s : AgentState) : AgentEvent → AgentState
  | .msg avail m =>
    match m.action with
    | none => s
    | some a =>
      if a = "" then s
      else (handleAction BID GID (some m) avail ⟨a, m.bannerId, m.groupId⟩ s).1
  | .poll avail =>
    if s.pollActive then (discoverNow BID GID none avail s).1 else s

def runAgent (BID GID : String) (evs : List AgentEvent) : AgentState :=
  evs.foldl (agentStep BID GID) {}

def isReadyOp : AgentOp → Bool
  | .postReady _ => true
  | _ => false

/-- Number of `bannerReady` posts in an effect trace. -/
def readyCount (ops : List AgentOp) : Nat :=
  (ops.filter isReadyOp).length

/-- The message events delivering a list of messages while no timeline is
available yet. -/
def preMsgs (ms : List CmdMsg) : List AgentEvent :=
  ms.map (fun m => AgentEvent.msg false m)

/-! ## Delegated capture (`getBannerDataUri`, `/api/preview` branch)

After posting `captureScreenshot`, the caller installs a `message` listener
filtering on the creative's id and arms a 10-second timeout.  The first
correlated `screenshotCaptured`/`screenshotFailed` removes the listener,
clears the timeout and settles the promise; the timeout firing removes the
listener and rejects.  We model the 10-second bound by splitting the
delivered messages into those before the deadline (`pre`) and after
(`post`): the timeout fires between them exactly when still armed. -/

structure CapMsg where
  bannerId : Option String := none
  action : Option String := none
  dataUrl : String := ""
  error : Option String := none
  deriving DecidableEq, Repr

inductive CapOutcome
  | resolved (dataUrl : String)
  | rejected (msg : String)
  deriving DecidableEq, Repr

structure CapState where
  listening : Bool := true
  timeoutArmed : Bool := true
  settled : Option CapOutcome := none
  settleOps : Nat := 0
  deriving DecidableEq, Repr

/-- `event.data.error || 'Screenshot failed inside iframe'` (JS `||`: a
missing or empty error string falls back to the default). -/
def failMessage (m : CapMsg) : String :=
  match m.error with
  | some e => if e = "" then "Screenshot failed inside iframe" else e
  | none => "Screenshot failed inside iframe"

/-- The capture `message` handler. -/
def capStepMsg (bid : String) (s : CapState) (m : CapMsg) : CapState :=
  if s.listening = false then s
  else if m.bannerId ≠ some bid then s
  else if m.action = some "screenshotCaptured" then
    { listening := false, timeoutArmed := false,
      settled := some (s.settled.getD (.resolved m.dataUrl)),
      settleOps := s.settleOps + 1 }
  else if m.action = some "screenshotFailed" then
    { listening := false, timeoutArmed := false,
      settled := some (s.settled.getD (.rejected (failMessage m))),
      settleOps := s.settleOps + 1 }
  else s

/-- The timeout callback (fires only while armed). -/
def capStepTimeout (s : CapState) : CapState :=
  if s.timeoutArmed then
    { listening := false, timeoutArmed := false,
      settled := some (s.settled.getD (.rejected "Screenshot request timed out.")),
      settleOps := s.settleOps + 1 }
  else s

def runCapture (bid : String) (pre post : List CapMsg) : CapState :=
  post.foldl (capStepMsg bid) (capStepTimeout (pre.foldl (capStepMsg bid) {}))

/-- Spec-side: the first message correlated to the creative's id that is a
terminal capture response, and the outcome it denotes. -/
def firstOutcome (bid : String) : List CapMsg → Option CapOutcome
  | [] => none
  | m :: ms =>
    if m.bannerId = some bid ∧ m.action = some "screenshotCaptured" then
      some (.resolved m.dataUrl)
    else if m.bannerId = some bid ∧ m.action = some "screenshotFailed" then
      some (.rejected (failMessage m))
    else firstOutcome bid ms

end BannerBoard

namespace BannerBoard

/-! ## Helper lemmas -/

theorem find?_first {α : Type} (p : α → Bool) (pre post : List α) (e : α)
    (hpre : ∀ x ∈ pre, p x = false) (he : p e = true) :
    (pre ++ e :: post).find? p = some e := by
  induction pre with
  | nil => simp [List.find?, he]
  | cons a as ih =>
    have ha : p a = false := hpre a (by simp)
    simp only [List.cons_append, List.find?, ha]
    exact ih (fun x hx => hpre x (by simp [hx]))

theorem findSome?_first {α β : Type} (f : α → Option β) (pre post : List α)
    (e : α) (v : β) (hpre : ∀ x ∈ pre, f x = none) (he : f e = some v) :
    (pre ++ e :: post).findSome? f = some v := by
  induction pre with
  | nil => simp [List.findSome?, he]
  | cons a as ih =>
    have ha : f a = none := hpre a (by simp)
    simp only [List.cons_append, List.findSome?_cons, ha]
    exact ih (fun x hx => hpre x (by simp [hx]))

theorem findSome?_none {α β : Type} (f : α → Option β) (l : List α)
    (h : ∀ x ∈ l, f x = none) : l.findSome? f = none := by
  induction l with
  | nil => rfl
  | cons a as ih =>
    have ha : f a = none := h a (by simp)
    simp only [List.findSome?_cons, ha]
    exact ih (fun x hx => h x (by simp [hx]))

theorem eatToks_append (ts us : List Tok) (cs : List Char) :
    eatToks (ts ++ us) cs = (eatToks ts cs).bind (eatToks us) := by
  induction ts generalizing cs with
  | nil => simp [eatToks]
  | cons t ts ih =>
    simp only [List.cons_append, eatToks]
    cases eatTok t cs with
    | none => rfl
    | some r => exact ih r

theorem eatToks_single (t : Tok) (cs : List Char) :
    eatToks [t] cs = eatTok t cs := by
  cases h : eatTok t cs <;> simp [eatToks, h]

theorem eatLit_dot_imp_eatOne_dot {cs r : List Char}
    (h : eatLit ['.'] cs = some r) : eatOne jsDot cs = some r := by
  cases cs with
  | nil => simp [eatLit] at h
  | cons c cs' =>
    by_cases hc : c = '.'
    · subst hc
      simp only [eatLit, if_pos rfl] at h
      simp only [eatOne]
      rw [if_pos (by decide)]
      exact h
    · simp [eatLit, hc] at h

theorem eatTok_dot {cs r : List Char} (h : eatTok (Tok.lit ".") cs = some r) :
    eatTok (Tok.one Cls.dot) cs = some r := by
  have hd : (".").data = ['.'] := by decide
  simp only [eatTok, hd] at h
  simp only [eatTok, Cls.check]
  exact eatLit_dot_imp_eatOne_dot h

/-- A literal `ad.size` tag is accepted by the code's widened matcher, with
the same captures. -/
theorem specAt_imp_metaAt {cs : List Char} {wh : Nat × Nat}
    (h : specAdSizeTagAt cs = some wh) : matchMetaAt cs = some wh := by
  have hS : specToksA
      = ([Tok.lit "<meta", .plus .ws, .lit "name=", .one .quote, .lit "ad"]
          ++ [Tok.lit "."])
        ++ [Tok.lit "size", .one .quote, .plus .ws, .lit "content=",
            .one .quote, .lit "width="] := rfl
  have hM : metaToksA
      = ([Tok.lit "<meta", .plus .ws, .lit "name=", .one .quote, .lit "ad"]
          ++ [Tok.one .dot])
        ++ [Tok.lit "size", .one .quote, .plus .ws, .lit "content=",
            .one .quote, .lit "width="] := rfl
  unfold specAdSizeTagAt at h
  unfold matchMetaAt
  rw [hS, eatToks_append, eatToks_append] at h
  rw [hM, eatToks_append, eatToks_append]
  cases h1 : eatToks [Tok.lit "<meta", .plus .ws, .lit "name=", .one .quote,
      .lit "ad"] cs with
  | none => rw [h1] at h; simp at h
  | some r1 =>
    rw [h1] at h
    simp only [Option.some_bind] at h ⊢
    cases h2 : eatToks [Tok.lit "."] r1 with
    | none => rw [h2] at h; simp at h
    | some r2 =>
      rw [h2] at h
      have h2' : eatTok (Tok.lit ".") r1 = some r2 := by
        rw [← eatToks_single]; exact h2
      have h3 : eatToks [Tok.one Cls.dot] r1 = some r2 := by
        rw [eatToks_single]; exact eatTok_dot h2'
      rw [h3]
      exact h

theorem replaceFirst_no_occurrence (pat repl cs : List Char)
    (h : containsSub pat cs = false) : replaceFirst pat repl cs = cs := by
  induction cs with
  | nil => rfl
  | cons c cs ih =>
    simp only [containsSub, Bool.or_eq_false_iff] at h
    simp [replaceFirst, h.1, ih h.2]

theorem reloadBanners_length (gid : String) (fresh : Nat → String) :
    ∀ (i : Nat) (bs : List Banner),
    (reloadBanners gid fresh i bs).length = bs.length := by
  intro i bs
  induction bs generalizing i with
  | nil => rfl
  | cons b rest ih => simp [reloadBanners, ih]

theorem reloadBanners_getElem? (gid : String) (fresh : Nat → String) :
    ∀ (bs : List Banner) (i j : Nat),
    (reloadBanners gid fresh i bs)[j]?
      = (bs[j]?).map (fun b =>
          if b.groupId = some gid then { b with key := some (fresh (i + j)) }
          else b) := by
  intro bs
  induction bs with
  | nil => intro i j; simp [reloadBanners]
  | cons b rest ih =>
    intro i j
    cases j with
    | zero => simp [reloadBanners]
    | succ j =>
      simp only [reloadBanners, List.getElem?_cons_succ]
      rw [ih (i + 1) j]
      have hij : i + 1 + j = i + (j + 1) := by omega
      rw [hij]

theorem reloadReady_mem (gid : String) (bs : List Banner)
    (ready : Finset String) (x : String) :
    x ∈ reloadReady gid bs ready ↔
      x ∈ ready ∧ ∀ b ∈ bs, b.groupId = some gid → b.id ≠ x := by
  unfold reloadReady
  induction bs generalizing ready with
  | nil => simp
  | cons b rest ih =>
    simp only [List.foldl_cons]
    by_cases hb : b.groupId = some gid
    · rw [if_pos hb, ih]
      rw [Finset.mem_erase]
      constructor
      · rintro ⟨⟨hne, hx⟩, hrest⟩
        refine ⟨hx, ?_⟩
        intro b' hb' hg'
        rcases List.mem_cons.mp hb' with rfl | hmem
        · exact fun he => hne he.symm
        · exact hrest b' hmem hg'
      · rintro ⟨hx, hall⟩
        refine ⟨⟨?_, hx⟩, ?_⟩
        · exact fun he => hall b (List.mem_cons_self _ _) hb he.symm
        · exact fun b' hmem hg' => hall b' (List.mem_cons.mpr (Or.inr hmem)) hg'
    · rw [if_neg hb, ih]
      constructor
      · rintro ⟨hx, hrest⟩
        refine ⟨hx, ?_⟩
        intro b' hb' hg'
        rcases List.mem_cons.mp hb' with rfl | hmem
        · exact absurd hg' hb
        · exact hrest b' hmem hg'
      · rintro ⟨hx, hall⟩
        exact ⟨hx, fun b' hmem hg' => hall b' (List.mem_cons.mpr (Or.inr hmem)) hg'⟩

theorem readyCount_append (a b : List AgentOp) :
    readyCount (a ++ b) = readyCount a + readyCount b := by
  simp [readyCount, List.filter_append]

theorem indivOps_no_ready (BID : String) (c : Cmd) :
    readyCount (indivOps BID c) = 0 := by
  unfold indivOps readyCount
  repeat' split
  all_goals rfl

theorem groupOps_no_ready (GID : String) (c : Cmd) :
    readyCount (groupOps GID c) = 0 := by
  unfold groupOps readyCount
  repeat' split
  all_goals rfl

theorem execCmd_discovered (BID GID : String) (cur : Option CmdMsg) (c : Cmd)
    (s : AgentState) :
    (execCmd BID GID cur c s).1.discovered = s.discovered := by
  unfold execCmd
  repeat' split
  all_goals rfl

theorem execCmd_pollActive (BID GID : String) (cur : Option CmdMsg) (c : Cmd)
    (s : AgentState) :
    (execCmd BID GID cur c s).1.pollActive = s.pollActive := by
  unfold execCmd
  repeat' split
  all_goals rfl

theorem execCmd_out (BID GID : String) (cur : Option CmdMsg) (c : Cmd)
    (s : AgentState) :
    ∃ ops, (execCmd BID GID cur c s).1.out = s.out ++ ops
      ∧ readyCount ops = 0 := by
  unfold execCmd
  split
  · cases cur with
    | none => exact ⟨[], by simp, rfl⟩
    | some m =>
      refine ⟨[.startCapture BID m.width m.height] ++ groupOps GID c, ?_, ?_⟩
      · simp [List.append_assoc]
      · rw [readyCount_append, groupOps_no_ready]
        rfl
  · refine ⟨indivOps BID c ++ groupOps GID c, ?_, ?_⟩
    · simp [List.append_assoc]
    · rw [readyCount_append, groupOps_no_ready, indivOps_no_ready]

theorem execCmd_readyCount (BID GID : String) (cur : Option CmdMsg) (c : Cmd)
    (s : AgentState) :
    readyCount (execCmd BID GID cur c s).1.out = readyCount s.out := by
  obtain ⟨ops, ho, hr⟩ := execCmd_out BID GID cur c s
  rw [ho, readyCount_append, hr]
  omega

/-- First-discovery effects: when a handle is available and none was
recorded, the step marks discovery, stops the interval, and emits the pause
and the scoped `ready` right after the previous trace — whatever the replay
then does (its ops, a throw, or nothing) adds no further `ready`. -/
theorem discoverNow_fire (BID GID : String) (cur : Option CmdMsg)
    (avail : Bool) (s : AgentState) (hc : avail = true ∧ s.discovered = false) :
    (discoverNow BID GID cur avail s).1.discovered = true
    ∧ (discoverNow BID GID cur avail s).1.pollActive = false
    ∧ ∃ tail, (discoverNow BID GID cur avail s).1.out
        = s.out ++ [.mtPause, .postReady BID] ++ tail ∧ readyCount tail = 0 := by
  unfold discoverNow
  rw [if_pos hc]
  cases hp : s.pending with
  | none =>
    refine ⟨rfl, rfl, [], ?_, rfl⟩
    simp
  | some c =>
    dsimp only
    cases hr : execCmd BID GID cur c
        (AgentState.mk true (some c) false s.dispatched
          (s.out ++ [.mtPause, .postReady BID])) with
    | mk s2 thr =>
      have hd2 : s2.discovered = true := by
        have hx := execCmd_discovered BID GID cur c
          (AgentState.mk true (some c) false s.dispatched
            (s.out ++ [.mtPause, .postReady BID]))
        rw [hr] at hx
        exact hx
      have hp2 : s2.pollActive = false := by
        have hx := execCmd_pollActive BID GID cur c
          (AgentState.mk true (some c) false s.dispatched
            (s.out ++ [.mtPause, .postReady BID]))
        rw [hr] at hx
        exact hx
      have hout : ∃ ops, s2.out = (s.out ++ [.mtPause, .postReady BID]) ++ ops
          ∧ readyCount ops = 0 := by
        have hx := execCmd_out BID GID cur c
          (AgentState.mk true (some c) false s.dispatched
            (s.out ++ [.mtPause, .postReady BID]))
        rw [hr] at hx
        exact hx
      obtain ⟨ops, ho, hro⟩ := hout
      cases thr with
      | true => exact ⟨hd2, hp2, ops, ho, hro⟩
      | false => exact ⟨hd2, hp2, ops, ho, hro⟩

theorem discoverNow_ready_inv (BID GID : String) (cur : Option CmdMsg)
    (avail : Bool) (s : AgentState)
    (h : readyCount s.out = (if s.discovered then 1 else 0)) :
    readyCount (discoverNow BID GID cur avail s).1.out
      = (if (discoverNow BID GID cur avail s).1.discovered then 1 else 0) := by
  by_cases hc : avail = true ∧ s.discovered = false
  · obtain ⟨h1, h2, tail, ht, htr⟩ := discoverNow_fire BID GID cur avail s hc
    have hs : readyCount s.out = 0 := by rw [h, hc.2]; rfl
    rw [ht, h1, readyCount_append, readyCount_append, htr, hs]
    rfl
  · have hid : discoverNow BID GID cur avail s = (s, false) := by
      unfold discoverNow
      rw [if_neg hc]
    rw [hid]
    exact h

theorem step_ready_inv (BID GID : String) (s : AgentState) (e : AgentEvent)
    (h : readyCount s.out = (if s.discovered then 1 else 0)) :
    readyCount (agentStep BID GID s e).out
      = (if (agentStep BID GID s e).discovered then 1 else 0) := by
  cases e with
  | msg avail m =>
    cases m with
    | mk maction mbanner mgroup mw mh =>
      simp only [agentStep]
      cases maction with
      | none => exact h
      | some a =>
        dsimp only
        split
        · exact h
        · unfold handleAction
          have hdn := discoverNow_ready_inv BID GID
            (some (CmdMsg.mk (some a) mbanner mgroup mw mh)) avail s h
          split
          next s1 heq =>
            rw [heq] at hdn
            exact hdn
          next s1 heq =>
            rw [heq] at hdn
            split
            · rw [execCmd_readyCount, execCmd_discovered]
              exact hdn
            · exact hdn
  | poll avail =>
    simp only [agentStep]
    split
    · exact discoverNow_ready_inv BID GID none avail s h
    · exact h

theorem foldl_ready_inv (BID GID : String) (evs : List AgentEvent) :
    ∀ s : AgentState, readyCount s.out = (if s.discovered then 1 else 0) →
    readyCount (evs.foldl (agentStep BID GID) s).out
      = (if (evs.foldl (agentStep BID GID) s).discovered then 1 else 0) := by
  induction evs with
  | nil => intro s h; exact h
  | cons e evs ih =>
    intro s h
    exact ih _ (step_ready_inv BID GID s e h)

theorem run_msgs_queue (BID GID : String) (ms : List CmdMsg)
    (hact : ∀ x ∈ ms, x.action ≠ none ∧ x.action ≠ some "") (hne : ms ≠ []) :
    ∀ s : AgentState, s.discovered = false →
    (preMsgs ms).foldl (agentStep BID GID) s
      = { s with pending := (ms.getLast?).map CmdMsg.toCmd } := by
  induction ms with
  | nil => exact absurd rfl hne
  | cons m ms ih =>
    intro s hd
    obtain ⟨ha1, ha2⟩ := hact m (List.mem_cons_self _ _)
    have hstep : agentStep BID GID s (.msg false m)
        = { s with pending := some m.toCmd } := by
      simp only [agentStep]
      cases hma : m.action with
      | none => exact absurd hma ha1
      | some a =>
        dsimp only
        have haz : ¬ a = "" := by
          intro h0
          rw [h0] at hma
          exact ha2 hma
        rw [if_neg haz]
        unfold handleAction discoverNow
        rw [if_neg (by simp)]
        show ({ s with pending := some ⟨a, m.bannerId, m.groupId⟩ } : AgentState) = _
        unfold CmdMsg.toCmd
        rw [hma]
        rfl
    simp only [preMsgs, List.map_cons, List.foldl_cons]
    rw [hstep]
    cases ms with
    | nil => rfl
    | cons m2 ms2 =>
      have hres := ih (fun x hx => hact x (List.mem_cons_of_mem _ hx))
        (by simp) { s with pending := some m.toCmd } hd
      simp only [preMsgs] at hres
      rw [hres, List.getLast?_cons_cons]

theorem findIdx_append_of_lt {α : Type} (p : α → Bool) (l₁ l₂ : List α)
    (h : l₁.findIdx p < l₁.length) : (l₁ ++ l₂).findIdx p = l₁.findIdx p := by
  induction l₁ with
  | nil => simp at h
  | cons a as ih =>
    by_cases ha : p a
    · simp [List.findIdx_cons, ha]
    · simp only [List.findIdx_cons, ha, cond_false, List.length_cons] at h
      simp only [List.cons_append, List.findIdx_cons, ha, cond_false]
      rw [ih (by omega)]

theorem findIdx_append_of_none {α : Type} (p : α → Bool) (l₁ l₂ : List α)
    (h : ∀ x ∈ l₁, p x = false) :
    (l₁ ++ l₂).findIdx p = l₁.length + l₂.findIdx p := by
  induction l₁ with
  | nil => simp
  | cons a as ih =>
    have ha : p a = false := h a (List.mem_cons_self _ _)
    simp only [List.cons_append, List.findIdx_cons, ha, cond_false, List.length_cons]
    rw [ih (fun x hx => h x (List.mem_cons_of_mem _ hx))]
    omega

theorem groupCount_append (bs : List Banner) (b : Banner) (g : String) :
    groupCount (bs ++ [b]) g
      = groupCount bs g + (if b.groupId = some g then 1 else 0) := by
  unfold groupCount
  rw [List.filter_append, List.length_append]
  congr 1
  by_cases hb : b.groupId = some g
  · simp [List.filter, hb]
  · simp only [List.filter]
    rw [show (b.groupId == some g) = false by simp [hb]]
    simp [hb]

theorem groupCount_pos_iff (bs : List Banner) (g : String) :
    0 < groupCount bs g ↔ ∃ b ∈ bs, b.groupId = some g := by
  unfold groupCount
  rw [List.length_pos]
  constructor
  · intro hn
    obtain ⟨x, hx⟩ := List.exists_mem_of_ne_nil _ hn
    have := List.mem_filter.mp hx
    exact ⟨x, this.1, by simpa using this.2⟩
  · rintro ⟨b, hb, hbg⟩
    exact List.ne_nil_of_mem (List.mem_filter.mpr ⟨hb, by simp [hbg]⟩)

theorem firstIdx_lt_length (bs : List Banner) (g : String)
    (h : 0 < groupCount bs g) : firstIdx bs g < bs.length := by
  obtain ⟨b, hb, hbg⟩ := (groupCount_pos_iff bs g).mp h
  exact List.findIdx_lt_length_of_exists ⟨b, hb, by simp [hbg]⟩

theorem firstIdx_append_of_pos (bs : List Banner) (b : Banner) (g : String)
    (h : 0 < groupCount bs g) : firstIdx (bs ++ [b]) g = firstIdx bs g :=
  findIdx_append_of_lt _ bs [b] (firstIdx_lt_length bs g h)

theorem firstIdx_append_of_new (bs : List Banner) (b : Banner) (g : String)
    (h : groupCount bs g = 0) (hbg : b.groupId = some g) :
    firstIdx (bs ++ [b]) g = bs.length := by
  have hnone : ∀ x ∈ bs, (x.groupId == some g) = false := by
    intro x hx
    by_cases hxg : x.groupId = some g
    · exact absurd ((groupCount_pos_iff bs g).mpr ⟨x, hx, hxg⟩) (by omega)
    · simp [hxg]
  unfold firstIdx
  rw [findIdx_append_of_none _ bs [b] hnone]
  simp [List.findIdx_cons, hbg]

theorem groupCounts_append (bs : List Banner) (b : Banner) :
    groupCounts (bs ++ [b]) = countStep (groupCounts bs) b := by
  unfold groupCounts
  rw [List.foldl_append]
  rfl

theorem groupCounts_of_all_none (bs : List Banner)
    (h : ∀ b ∈ bs, b.groupId = none) : groupCounts bs = [] := by
  unfold groupCounts
  suffices hgen : ∀ acc, bs.foldl countStep acc = acc from hgen []
  induction bs with
  | nil => intro acc; rfl
  | cons b rest ih =>
    intro acc
    rw [List.foldl_cons]
    have hb : b.groupId = none := h b (List.mem_cons_self _ _)
    rw [show countStep acc b = acc by unfold countStep; rw [hb]]
    exact ih (fun x hx => h x (List.mem_cons_of_mem _ hx)) acc

theorem any_key_iff (acc : List (String × Nat)) (g : String) :
    acc.any (fun p => p.1 == g) = true ↔ g ∈ acc.map Prod.fst := by
  rw [List.any_eq_true]
  constructor
  · rintro ⟨p, hp, hpg⟩
    exact List.mem_map.mpr ⟨p, hp, eq_of_beq hpg⟩
  · intro hg
    obtain ⟨p, hp, hpg⟩ := List.mem_map.mp hg
    exact ⟨p, hp, by simp [hpg]⟩

theorem incr_keys_present (acc : List (String × Nat)) (g : String)
    (h : acc.any (fun p => p.1 == g) = true) :
    (incrGroup acc g).map Prod.fst = acc.map Prod.fst := by
  unfold incrGroup
  rw [if_pos h, List.map_map]
  apply List.map_congr_left
  intro p hp
  show (if p.1 == g then (p.1, p.2 + 1) else p).1 = p.1
  split <;> rfl

/-- Invariants of the group-count object built by the `reduce`: keys are
distinct, each value is the member count of its key, a key is present
exactly when the group is inhabited, and keys are ordered by the index of
the group's first member (first-insertion enumeration order). -/
theorem groupCounts_inv (bs : List Banner)
    (hne : ∀ b ∈ bs, b.groupId ≠ some "") :
    ((groupCounts bs).map Prod.fst).Nodup
    ∧ (∀ p ∈ groupCounts bs, p.2 = groupCount bs p.1)
    ∧ (∀ g : String, g ∈ (groupCounts bs).map Prod.fst ↔ 0 < groupCount bs g)
    ∧ (groupCounts bs).Pairwise
        (fun p q => firstIdx bs p.1 < firstIdx bs q.1) := by
  induction bs using List.reverseRecOn with
  | nil =>
    refine ⟨List.nodup_nil, ?_, ?_, List.Pairwise.nil⟩
    · intro p hp
      simp [groupCounts] at hp
    · intro g
      constructor
      · intro h
        simp [groupCounts] at h
      · intro h
        simp [groupCount] at h
  | append_singleton bs b ih =>
    have hne' : ∀ x ∈ bs, x.groupId ≠ some "" :=
      fun x hx => hne x (List.mem_append_left _ hx)
    obtain ⟨hnd, hval, hpres, hord⟩ := ih hne'
    rw [groupCounts_append]
    cases hb : b.groupId with
    | none =>
      rw [show countStep (groupCounts bs) b = groupCounts bs by
            unfold countStep; rw [hb]]
      have hcount : ∀ g, groupCount (bs ++ [b]) g = groupCount bs g := by
        intro g
        rw [groupCount_append]
        simp [hb]
      refine ⟨hnd, ?_, ?_, ?_⟩
      · intro p hp
        rw [hcount]
        exact hval p hp
      · intro g
        rw [hcount]
        exact hpres g
      · refine List.Pairwise.imp_of_mem ?_ hord
        intro p q hp hq hlt
        rw [firstIdx_append_of_pos bs b p.1 ((hpres p.1).mp (List.mem_map_of_mem _ hp)),
            firstIdx_append_of_pos bs b q.1 ((hpres q.1).mp (List.mem_map_of_mem _ hq))]
        exact hlt
    | some g0 =>
      have hg0 : ¬ g0 = "" := by
        intro h0
        exact hne b (List.mem_append_right _ (List.mem_cons_self _ _)) (by rw [hb, h0])
      rw [show countStep (groupCounts bs) b = incrGroup (groupCounts bs) g0 by
            unfold countStep
            rw [hb]
            show (if g0 = "" then groupCounts bs else incrGroup (groupCounts bs) g0)
              = incrGroup (groupCounts bs) g0
            exact if_neg hg0]
      have hcount_eq : ∀ g, g ≠ g0 → groupCount (bs ++ [b]) g = groupCount bs g := by
        intro g hg
        have hx : ¬ (b.groupId = some g) := by
          rw [hb]
          intro hx
          exact hg (Option.some.inj hx).symm
        rw [groupCount_append, if_neg hx]
        omega
      have hcount_g0 : groupCount (bs ++ [b]) g0 = groupCount bs g0 + 1 := by
        rw [groupCount_append, if_pos hb]
      by_cases hkey : (groupCounts bs).any (fun p => p.1 == g0) = true
      · have hkeys := incr_keys_present (groupCounts bs) g0 hkey
        have hg0mem : g0 ∈ (groupCounts bs).map Prod.fst := (any_key_iff _ _).mp hkey
        refine ⟨by rw [hkeys]; exact hnd, ?_, ?_, ?_⟩
        · intro p hp
          unfold incrGroup at hp
          rw [if_pos hkey] at hp
          obtain ⟨q, hq, hupd⟩ := List.mem_map.mp hp
          by_cases hq1 : q.1 == g0
          · rw [if_pos hq1] at hupd
            rw [← hupd]
            show q.2 + 1 = groupCount (bs ++ [b]) q.1
            rw [eq_of_beq hq1, hcount_g0, ← eq_of_beq hq1, hval q hq, eq_of_beq hq1]
          · rw [if_neg hq1] at hupd
            rw [← hupd]
            have hq1' : q.1 ≠ g0 := fun he => hq1 (by simp [he])
            rw [hcount_eq q.1 hq1']
            exact hval q hq
        · intro g
          rw [hkeys]
          by_cases hgg : g = g0
          · subst hgg
            constructor
            · intro _
              rw [hcount_g0]
              omega
            · intro _
              exact hg0mem
          · rw [hcount_eq g hgg]
            exact hpres g
        · unfold incrGroup
          rw [if_pos hkey, List.pairwise_map]
          refine List.Pairwise.imp_of_mem ?_ hord
          intro p q hp hq hlt
          have hp1 : (if p.1 == g0 then (p.1, p.2 + 1) else p).1 = p.1 := by
            split <;> rfl
          have hq1 : (if q.1 == g0 then (q.1, q.2 + 1) else q).1 = q.1 := by
            split <;> rfl
          rw [hp1, hq1,
              firstIdx_append_of_pos bs b p.1 ((hpres p.1).mp (List.mem_map_of_mem _ hp)),
              firstIdx_append_of_pos bs b q.1 ((hpres q.1).mp (List.mem_map_of_mem _ hq))]
          exact hlt
      · have hg0nmem : g0 ∉ (groupCounts bs).map Prod.fst := by
          intro hmem
          exact hkey ((any_key_iff _ _).mpr hmem)
        have hcnt0 : groupCount bs g0 = 0 := by
          by_contra hpos
          exact hg0nmem ((hpres g0).mpr (Nat.pos_of_ne_zero hpos))
        unfold incrGroup
        rw [if_neg hkey]
        refine ⟨?_, ?_, ?_, ?_⟩
        · rw [List.map_append]
          refine List.Nodup.append hnd (List.nodup_singleton g0) ?_
          intro a ha hb2
          have : a = g0 := by simpa using hb2
          subst this
          exact hg0nmem ha
        · intro p hp
          rcases List.mem_append.mp hp with hp1 | hp2
          · have hp1' : p.1 ≠ g0 := by
              intro he
              apply hg0nmem
              rw [← he]
              exact List.mem_map_of_mem _ hp1
            rw [hcount_eq p.1 hp1']
            exact hval p hp1
          · have hpe : p = (g0, 1) := by simpa using hp2
            subst hpe
            show 1 = groupCount (bs ++ [b]) g0
            rw [hcount_g0, hcnt0]
        · intro g
          rw [List.map_append, List.mem_append]
          by_cases hgg : g = g0
          · subst hgg
            constructor
            · intro _
              rw [hcount_g0]
              omega
            · intro _
              right
              simp
          · rw [hcount_eq g hgg]
            constructor
            · rintro (h1 | h2)
              · exact (hpres g).mp h1
              · exact absurd (by simpa using h2) hgg
            · intro hpos
              exact Or.inl ((hpres g).mpr hpos)
        · rw [List.pairwise_append]
          refine ⟨?_, List.pairwise_singleton _ _, ?_⟩
          · refine List.Pairwise.imp_of_mem ?_ hord
            intro p q hp hq hlt
            rw [firstIdx_append_of_pos bs b p.1 ((hpres p.1).mp (List.mem_map_of_mem _ hp)),
                firstIdx_append_of_pos bs b q.1 ((hpres q.1).mp (List.mem_map_of_mem _ hq))]
            exact hlt
          · intro p hp q hq
            have hqe : q = (g0, 1) := by simpa using hq
            subst hqe
            show firstIdx (bs ++ [b]) p.1 < firstIdx (bs ++ [b]) g0
            rw [firstIdx_append_of_new bs b g0 hcnt0 hb,
                firstIdx_append_of_pos bs b p.1 ((hpres p.1).mp (List.mem_map_of_mem _ hp))]
            exact firstIdx_lt_length bs p.1 ((hpres p.1).mp (List.mem_map_of_mem _ hp))

/-- The running-argmax fold with a strict comparison: the accumulator never
decreases, every scanned value is bounded by the result, and the result is
either the untouched accumulator or comes from the first entry attaining
the final maximum (everything before it is strictly smaller, everything
after is no larger). -/
theorem pick_spec (l : List (String × Nat)) :
    ∀ acc : Option String × Nat,
    acc.2 ≤ (l.foldl pickStep acc).2
    ∧ (∀ p ∈ l, p.2 ≤ (l.foldl pickStep acc).2)
    ∧ ((l.foldl pickStep acc) = acc
       ∨ ∃ pre p post, l = pre ++ p :: post
           ∧ (l.foldl pickStep acc).1 = some p.1
           ∧ (l.foldl pickStep acc).2 = p.2
           ∧ acc.2 < p.2
           ∧ (∀ q ∈ pre, q.2 < p.2)
           ∧ (∀ q ∈ post, q.2 ≤ p.2)) := by
  induction l with
  | nil =>
    intro acc
    exact ⟨le_refl _, by simp, Or.inl rfl⟩
  | cons p rest ih =>
    intro acc
    simp only [List.foldl_cons]
    by_cases hp : p.2 > acc.2
    · have hps : pickStep acc p = (some p.1, p.2) := by
        unfold pickStep
        rw [if_pos hp]
      rw [hps]
      obtain ⟨ha, hb, hc⟩ := ih (some p.1, p.2)
      refine ⟨le_trans (le_of_lt hp) ha, ?_, ?_⟩
      · intro q hq
        rcases List.mem_cons.mp hq with rfl | hq'
        · exact ha
        · exact hb q hq'
      · rcases hc with heq | ⟨pre, p', post, hsplit, h1, h2, h3, h4, h5⟩
        · refine Or.inr ⟨[], p, rest, by simp, ?_, ?_, hp, by simp, ?_⟩
          · rw [heq]
          · rw [heq]
          · intro q hq
            have := hb q hq
            rw [heq] at this
            exact this
        · refine Or.inr ⟨p :: pre, p', post, by rw [hsplit, List.cons_append], h1, h2,
            lt_trans hp h3, ?_, h5⟩
          intro q hq
          rcases List.mem_cons.mp hq with rfl | hq'
          · exact h3
          · exact h4 q hq'
    · have hps : pickStep acc p = acc := by
        unfold pickStep
        rw [if_neg hp]
      rw [hps]
      obtain ⟨ha, hb, hc⟩ := ih acc
      refine ⟨ha, ?_, ?_⟩
      · intro q hq
        rcases List.mem_cons.mp hq with rfl | hq'
        · exact le_trans (Nat.le_of_not_lt hp) ha
        · exact hb q hq'
      · rcases hc with heq | ⟨pre, p', post, hsplit, h1, h2, h3, h4, h5⟩
        · exact Or.inl heq
        · refine Or.inr ⟨p :: pre, p', post, by rw [hsplit, List.cons_append], h1, h2,
            h3, ?_, h5⟩
          intro q hq
          rcases List.mem_cons.mp hq with rfl | hq'
          · exact lt_of_le_of_lt (Nat.le_of_not_lt hp) h3
          · exact h4 q hq'

theorem cap_frozen (bid : String) (s : CapState) (h : s.listening = false)
    (m : CapMsg) : capStepMsg bid s m = s := by
  unfold capStepMsg
  rw [if_pos h]

theorem cap_frozen_foldl (bid : String) (ms : List CapMsg) (s : CapState)
    (h : s.listening = false) : ms.foldl (capStepMsg bid) s = s := by
  induction ms with
  | nil => rfl
  | cons m ms ih =>
    rw [List.foldl_cons, cap_frozen bid s h m]
    exact ih

theorem cap_pre_run (bid : String) (ms : List CapMsg) :
    ms.foldl (capStepMsg bid) {} =
      (match firstOutcome bid ms with
       | none => {}
       | some o =>
         { listening := false, timeoutArmed := false,
           settled := some o, settleOps := 1 }) := by
  induction ms with
  | nil => rfl
  | cons m ms ih =>
    simp only [List.foldl_cons, firstOutcome]
    by_cases h1 : m.bannerId = some bid ∧ m.action = some "screenshotCaptured"
    · rw [if_pos h1]
      have hstep : capStepMsg bid {} m
          = { listening := false, timeoutArmed := false,
              settled := some (.resolved m.dataUrl), settleOps := 1 } := by
        unfold capStepMsg
        rw [if_neg (by simp), if_neg (by simp [h1.1]), if_pos h1.2]
        rfl
      rw [hstep, cap_frozen_foldl bid ms _ rfl]
    · by_cases h2 : m.bannerId = some bid ∧ m.action = some "screenshotFailed"
      · rw [if_neg h1, if_pos h2]
        have hcap : ¬ m.action = some "screenshotCaptured" := by
          rw [h2.2]; intro hx; exact absurd (Option.some.inj hx) (by decide)
        have hstep : capStepMsg bid {} m
            = { listening := false, timeoutArmed := false,
                settled := some (.rejected (failMessage m)), settleOps := 1 } := by
          unfold capStepMsg
          rw [if_neg (by simp), if_neg (by simp [h2.1]), if_neg hcap, if_pos h2.2]
          rfl
        rw [hstep, cap_frozen_foldl bid ms _ rfl]
      · rw [if_neg h1, if_neg h2]
        have hstep : capStepMsg bid {} m = {} := by
          unfold capStepMsg
          rw [if_neg (by simp)]
          by_cases hb : m.bannerId = some bid
          · rw [if_neg (by simp [hb])]
            have ha1 : ¬ m.action = some "screenshotCaptured" := fun hh => h1 ⟨hb, hh⟩
            have ha2 : ¬ m.action = some "screenshotFailed" := fun hh => h2 ⟨hb, hh⟩
            rw [if_neg ha1, if_neg ha2]
          · rw [if_pos hb]
        rw [hstep]
        exact ih

theorem scanFor_mono {α : Type} (m₁ m₂ : List Char → Option α)
    (hm : ∀ cs r, m₁ cs = some r → m₂ cs = some r) :
    ∀ cs, (scanFor m₁ cs).isSome → (scanFor m₂ cs).isSome := by
  intro cs
  induction cs with
  | nil =>
    intro h
    simp only [scanFor] at h ⊢
    obtain ⟨r, hr⟩ := Option.isSome_iff_exists.mp h
    rw [hm [] r hr]
    rfl
  | cons c cs ih =>
    intro h
    simp only [scanFor] at h ⊢
    cases h2 : m₂ (c :: cs) with
    | some r => rfl
    | none =>
      cases h1 : m₁ (c :: cs) with
      | some r => rw [hm _ r h1] at h2; exact absurd h2 (by simp)
      | none => rw [h1] at h; exact ih h

/-! ## Claim theorems -/

/-- C1: The claim states that every request resolving outside the creative's
id-scoped root is answered 403 and file contents are never returned.  The code
checks containment with a bare string `startsWith`, without requiring a path
separator after the root.  For creative id `b`, the relative path
`../bx/secret.txt` resolves to `/tmp/bannerboard-previews/bx/secret.txt` —
outside the scope of creative `b` — yet the string check passes and the route
reads and serves the file.  The claim's specific `../../etc/passwd` instance,
however, is indeed rejected with 403. -/
theorem c1_path_containment_bug :
    serveGET ["b", "..", "bx", "secret.txt"]
      = .read "/tmp/bannerboard-previews/bx/secret.txt"
    ∧ insideScope "b" (normSegs
        (["tmp", "bannerboard-previews", "b"] ++ ["..", "bx", "secret.txt"])) = false
    ∧ serveGET ["b", "..", "..", "etc", "passwd"] = .forbidden := by
  refine ⟨?_, ?_, ?_⟩ <;> decide

/-- C4: entry discovery follows the strict precedence root `index.html`,
then first root-level HTML-extension file, then the first HTML-extension file
one directory level down in listing order, and fails (returns `none`,
surfaced by `POST` as the no-entry-document 400 error) when none exists. -/
theorem c4_entry_discovery (entries : List FsEntry) :
    (FsEntry.file "index.html" ∈ entries → findHtmlFile entries = some "index.html")
    ∧ ((∀ e ∈ entries, ¬(e.isAFile = true ∧ e.entryName = "index.html")) →
        ∀ pre e post, entries = pre ++ e :: post →
          e.isAFile = true → isHtmlName e.entryName = true →
          (∀ x ∈ pre, ¬(x.isAFile = true ∧ isHtmlName x.entryName = true)) →
          findHtmlFile entries = some e.entryName)
    ∧ ((∀ e ∈ entries, ¬(e.isAFile = true ∧ isHtmlName e.entryName = true)) →
        ∀ pre d sub post n, entries = pre ++ FsEntry.dir d sub :: post →
          (∀ x ∈ pre, subScan x = none) →
          findHtmlInSub sub = some n →
          findHtmlFile entries = some (d ++ "/" ++ n))
    ∧ ((∀ e ∈ entries, ¬(e.isAFile = true ∧ isHtmlName e.entryName = true)) →
        (∀ e ∈ entries, subScan e = none) →
        findHtmlFile entries = none) := by
  have hIdxHtml : isHtmlName "index.html" = true := by decide
  refine ⟨?_, ?_, ?_, ?_⟩
  · intro hmem
    have hsome : (entries.find? (fun e => e.isAFile && e.entryName == "index.html")).isSome := by
      rw [List.find?_isSome]
      exact ⟨FsEntry.file "index.html", hmem, by decide⟩
    obtain ⟨y, hy⟩ := Option.isSome_iff_exists.mp hsome
    have hpy := List.find?_some hy
    have hname : y.entryName = "index.html" := by
      have := (Bool.and_eq_true _ _).mp hpy
      exact eq_of_beq this.2
    simp only [findHtmlFile, hy, hname]
  · intro hnoidx pre e post hsplit hfile hhtml hpre
    have hidx : entries.find? (fun e => e.isAFile && e.entryName == "index.html") = none := by
      rw [List.find?_eq_none]
      intro x hx hb
      have := (Bool.and_eq_true _ _).mp hb
      exact hnoidx x hx ⟨this.1, eq_of_beq this.2⟩
    have hfind : entries.find? (fun e => e.isAFile && isHtmlName e.entryName) = some e := by
      rw [hsplit]
      refine find?_first _ _ _ _ ?_ (by simp [hfile, hhtml])
      intro x hx
      rcases Bool.eq_false_or_eq_true (x.isAFile && isHtmlName x.entryName) with h | h
      · have := (Bool.and_eq_true _ _).mp h
        exact absurd ⟨this.1, this.2⟩ (hpre x hx)
      · exact h
    simp only [findHtmlFile, hidx, hfind]
  · intro hnohtml pre d sub post n hsplit hpre hsub
    have hidx : entries.find? (fun e => e.isAFile && e.entryName == "index.html") = none := by
      rw [List.find?_eq_none]
      intro x hx hb
      have := (Bool.and_eq_true _ _).mp hb
      have hxn : x.entryName = "index.html" := eq_of_beq this.2
      exact hnohtml x hx ⟨this.1, by rw [hxn]; exact hIdxHtml⟩
    have hroot : entries.find? (fun e => e.isAFile && isHtmlName e.entryName) = none := by
      rw [List.find?_eq_none]
      intro x hx hb
      have := (Bool.and_eq_true _ _).mp hb
      exact hnohtml x hx ⟨this.1, this.2⟩
    have hfs : entries.findSome? subScan = some (d ++ "/" ++ n) := by
      rw [hsplit]
      exact findSome?_first _ _ _ _ _ hpre (by simp [subScan, hsub])
    simp only [findHtmlFile, hidx, hroot, hfs]
  · intro hnohtml hnosub
    have hidx : entries.find? (fun e => e.isAFile && e.entryName == "index.html") = none := by
      rw [List.find?_eq_none]
      intro x hx hb
      have := (Bool.and_eq_true _ _).mp hb
      have hxn : x.entryName = "index.html" := eq_of_beq this.2
      exact hnohtml x hx ⟨this.1, by rw [hxn]; exact hIdxHtml⟩
    have hroot : entries.find? (fun e => e.isAFile && isHtmlName e.entryName) = none := by
      rw [List.find?_eq_none]
      intro x hx hb
      have := (Bool.and_eq_true _ _).mp hb
      exact hnohtml x hx ⟨this.1, this.2⟩
    have hfs : entries.findSome? subScan = none := findSome?_none _ _ hnosub
    simp only [findHtmlFile, hidx, hroot, hfs]

/-- C4 witness: a bundle with both a subdirectory HTML file and a root
`index.html` selects the root file. -/
theorem c4_entry_discovery_witness :
    findHtmlFile [FsEntry.dir "sub" [FsEntry.file "a.html"], FsEntry.file "index.html"]
      = some "index.html" :=
  (c4_entry_discovery
    [FsEntry.dir "sub" [FsEntry.file "a.html"], FsEntry.file "index.html"]).1
    (List.mem_cons_of_mem _ (List.mem_cons_self _ _))

/-- C3 counterexample: the claim requires a document containing neither an
`ad.size` meta tag nor the authoring-tool signature to fail with the
dimensions-undetectable error.  The dot in the code's regex `ad.size` is
unescaped and matches any character, so a document whose only signal is the
bogus tag `<meta name="adqsize" content="width=1,height=2">` — no literal
`ad.size` tag, no Adobe signature — nevertheless yields `{width:1, height:2}`
instead of failing. -/
theorem c3_dimension_detection_cx :
    specHasAdSizeTag
      "<html><head><meta name=\"adqsize\" content=\"width=1,height=2\"></head><body></body></html>".data
      = false
    ∧ testAdobe
      "<html><head><meta name=\"adqsize\" content=\"width=1,height=2\"></head><body></body></html>".data
      = false
    ∧ getAdSize
      "<html><head><meta name=\"adqsize\" content=\"width=1,height=2\"></head><body></body></html>"
      = some (1, 2) := by
  refine ⟨?_, ?_, ?_⟩ <;> decide

/-- C3 (amended): dimension detection follows strict precedence with the
meta pattern read as the code's regex — the dot of `ad.size` being a
single-character wildcard.  (i) When the (widened) meta pattern matches, its
captured `W`/`H` are returned even when the authoring-tool signature and a
canvas are also present; (ii) otherwise, with the Adobe Animate signature
present, the result is whatever the canvas regex finds; (iii) with neither,
detection fails (`none`, surfaced by `POST` as the dimensions-undetectable
400 error) and no default size is invented.  Moreover any document that does
contain a literal `ad.size` tag is never dimensions-undetectable. -/
theorem c3_dimension_detection (html : String) :
    (∀ w h, findMeta html.data = some (w, h) → getAdSize html = some (w, h))
    ∧ (findMeta html.data = none → testAdobe html.data = true →
        getAdSize html = findCanvas html.data)
    ∧ (findMeta html.data = none → testAdobe html.data = false →
        getAdSize html = none)
    ∧ (specHasAdSizeTag html.data = true → (getAdSize html).isSome = true) := by
  refine ⟨?_, ?_, ?_, ?_⟩
  · intro w h hm
    simp only [getAdSize, hm]
  · intro hm ha
    simp only [getAdSize, hm, ha, if_true]
  · intro hm ha
    simp only [getAdSize, hm, ha]
    rfl
  · intro hs
    have hmono := scanFor_mono specAdSizeTagAt matchMetaAt
      (fun cs r hr => specAt_imp_metaAt hr) html.data hs
    obtain ⟨wh, hwh⟩ := Option.isSome_iff_exists.mp hmono
    simp only [getAdSize, findMeta, hwh]
    rfl

/-- C3 witness: a document with both a valid `ad.size` meta tag (with a
space after the comma) and an Adobe Animate canvas uses the meta values;
a document with only the signature and a `width="300" height="250"` canvas
falls back to the canvas values. -/
theorem c3_dimension_detection_witness :
    getAdSize
      "<head><meta name=\"ad.size\" content=\"width=300, height=250\"><meta name=\"authoring_tool\" content=\"Adobe_Animate_CC\"></head><body><canvas id=\"c\" width=\"100\" height=\"50\"></canvas></body>"
      = some (300, 250)
    ∧ getAdSize
      "<head><meta name=\"authoring_tool\" content=\"Adobe_Animate_CC\"></head><body><canvas id=\"canvas\" width=\"300\" height=\"250\"></canvas></body>"
      = some (300, 250) := by
  constructor
  · exact (c3_dimension_detection _).1 300 250 (by decide)
  · rw [(c3_dimension_detection _).2.1 (by decide) (by decide)]
    decide

/-- C10: for a bundle whose entry document lacks the literal `</head>`
substring, JS `replace` leaves the document untouched, so `POST` still
succeeds with a normal success response, but the stored entry document is
byte-for-byte the original: the control agent is never injected (the stored
document is exactly the input, so it contains no agent script, hence nothing
that could emit `ready` or answer commands). -/
theorem c10_no_head_marker (entries : List FsEntry) (contentOf : String → String)
    (script bannerId f : String) (w h : Nat)
    (hf : findHtmlFile entries = some f)
    (hd : getAdSize (contentOf f) = some (w, h))
    (hh : containsSub "</head>".data (contentOf f).data = false) :
    uploadPOST true true entries contentOf script bannerId
      = .ok ("/api/preview/" ++ bannerId ++ "/" ++ f) w h (contentOf f) := by
  have hinj : injectScreenshotScript script (contentOf f) = contentOf f := by
    unfold injectScreenshotScript
    rw [replaceFirst_no_occurrence _ _ _ hh]
  simp only [uploadPOST, hf, hd, hinj]
  rfl

/-- C10 witness: a head-less document with a valid `ad.size` tag uploads
successfully and is stored unchanged. -/
theorem c10_no_head_marker_witness :
    uploadPOST true true [FsEntry.file "index.html"]
      (fun _ => "<html><meta name=\"ad.size\" content=\"width=10,height=20\"><body></body></html>")
      "<script>agent</script>" "b1"
      = .ok ("/api/preview/" ++ "b1" ++ "/" ++ "index.html") 10 20
          "<html><meta name=\"ad.size\" content=\"width=10,height=20\"><body></body></html>" :=
  c10_no_head_marker [FsEntry.file "index.html"]
    (fun _ => "<html><meta name=\"ad.size\" content=\"width=10,height=20\"><body></body></html>")
    "<script>agent</script>" "b1" "index.html" 10 20
    (by decide) (by decide) (by decide)

/-- C8: hard reload gives every member of the target group a fresh render
key (the `fresh` supply models the per-member `uuidv4()` calls) and removes
exactly the member ids from the ReadySet; banners with another or no group
keep their whole record and their ReadySet membership, and nothing is ever
added to the ReadySet.  (Creative ids are unique — the spec's data-model
invariant.) -/
theorem c8_reload_group (gid : String) (fresh : Nat → String)
    (banners : List Banner) (ready : Finset String)
    (hids : (banners.map Banner.id).Nodup) :
    ((handleReloadGroup gid fresh banners ready).1).length = banners.length
    ∧ (∀ (i : Nat) (b : Banner), banners[i]? = some b →
        (b.groupId = some gid →
          ((handleReloadGroup gid fresh banners ready).1)[i]?
              = some { b with key := some (fresh i) }
          ∧ b.id ∉ (handleReloadGroup gid fresh banners ready).2)
        ∧ (b.groupId ≠ some gid →
          ((handleReloadGroup gid fresh banners ready).1)[i]? = some b
          ∧ (b.id ∈ (handleReloadGroup gid fresh banners ready).2 ↔ b.id ∈ ready)))
    ∧ (∀ x ∈ (handleReloadGroup gid fresh banners ready).2, x ∈ ready) := by
  refine ⟨reloadBanners_length gid fresh 0 banners, ?_, ?_⟩
  · intro i b hb
    constructor
    · intro hg
      constructor
      · show (reloadBanners gid fresh 0 banners)[i]? = _
        rw [reloadBanners_getElem?, hb]
        simp [hg, Nat.zero_add]
      · show b.id ∉ reloadReady gid banners ready
        rw [reloadReady_mem]
        rintro ⟨-, hall⟩
        exact hall b (List.getElem?_mem hb) hg rfl
    · intro hg
      constructor
      · show (reloadBanners gid fresh 0 banners)[i]? = _
        rw [reloadBanners_getElem?, hb]
        simp [hg]
      · show b.id ∈ reloadReady gid banners ready ↔ b.id ∈ ready
        rw [reloadReady_mem]
        constructor
        · exact fun hx => hx.1
        · intro hx
          refine ⟨hx, ?_⟩
          intro b' hb' hg' he
          have : b' = b :=
            List.inj_on_of_nodup_map hids hb' (List.getElem?_mem hb) he
          rw [this] at hg'
          exact hg hg'
  · intro x hx
    exact ((reloadReady_mem gid banners ready x).mp hx).1

/-- C8 witness: reloading group `G1` in a three-banner workspace with all
banners ready renews the render keys of the two `G1` members and drops
exactly their ids from the ReadySet; the `G2` banner is untouched. -/
theorem c8_reload_group_witness :
    (handleReloadGroup "G1" (fun i => "k" ++ toString i)
        [⟨"b1", "u", 1, 1, 0, 0, some "G1", some "old1"⟩,
         ⟨"b2", "u", 1, 1, 0, 0, some "G2", some "old2"⟩,
         ⟨"b3", "u", 1, 1, 0, 0, some "G1", none⟩]
        {"b1", "b2", "b3"}).1[0]?
      = some ⟨"b1", "u", 1, 1, 0, 0, some "G1", some ("k" ++ toString 0)⟩
    ∧ "b1" ∉ (handleReloadGroup "G1" (fun i => "k" ++ toString i)
        [⟨"b1", "u", 1, 1, 0, 0, some "G1", some "old1"⟩,
         ⟨"b2", "u", 1, 1, 0, 0, some "G2", some "old2"⟩,
         ⟨"b3", "u", 1, 1, 0, 0, some "G1", none⟩]
        {"b1", "b2", "b3"}).2
    ∧ (handleReloadGroup "G1" (fun i => "k" ++ toString i)
        [⟨"b1", "u", 1, 1, 0, 0, some "G1", some "old1"⟩,
         ⟨"b2", "u", 1, 1, 0, 0, some "G2", some "old2"⟩,
         ⟨"b3", "u", 1, 1, 0, 0, some "G1", none⟩]
        {"b1", "b2", "b3"}).1[1]?
      = some ⟨"b2", "u", 1, 1, 0, 0, some "G2", some "old2"⟩
    ∧ ("b2" ∈ (handleReloadGroup "G1" (fun i => "k" ++ toString i)
        [⟨"b1", "u", 1, 1, 0, 0, some "G1", some "old1"⟩,
         ⟨"b2", "u", 1, 1, 0, 0, some "G2", some "old2"⟩,
         ⟨"b3", "u", 1, 1, 0, 0, some "G1", none⟩]
        {"b1", "b2", "b3"}).2
      ↔ "b2" ∈ ({"b1", "b2", "b3"} : Finset String)) := by
  have h := c8_reload_group "G1" (fun i => "k" ++ toString i)
    [⟨"b1", "u", 1, 1, 0, 0, some "G1", some "old1"⟩,
     ⟨"b2", "u", 1, 1, 0, 0, some "G2", some "old2"⟩,
     ⟨"b3", "u", 1, 1, 0, 0, some "G1", none⟩]
    {"b1", "b2", "b3"} (by decide)
  have h0 := (h.2.1 0 ⟨"b1", "u", 1, 1, 0, 0, some "G1", some "old1"⟩ rfl).1 rfl
  have h1 := (h.2.1 1 ⟨"b2", "u", 1, 1, 0, 0, some "G2", some "old2"⟩ rfl).2 (by decide)
  exact ⟨h0.1, h0.2, h1.1, h1.2⟩

/-- C6 counterexample: the claim says every group command other than hard
reload is a no-op while some member of the target group is not ready.  With
`b2` of group `G1` not in the ReadySet, `global-restart` (the **soft**
restart, not hard reload) is nevertheless broadcast: the code's readiness
gate explicitly exempts `global-restart`. -/
theorem c6_group_gating_cx :
    allInGroupReady
      [⟨"b1", "u", 1, 1, 0, 0, some "G1", none⟩,
       ⟨"b2", "u", 1, 1, 0, 0, some "G1", none⟩] {"b1"} "G1" = false
    ∧ handleGlobalAction
      [⟨"b1", "u", 1, 1, 0, 0, some "G1", none⟩,
       ⟨"b2", "u", 1, 1, 0, 0, some "G1", none⟩] {"b1"} "global-restart"
      = some ("global-restart", "G1") := by
  refine ⟨?_, ?_⟩ <;> decide

/-- C6 (amended): when some member of the controls' target group is not
ready, `global-play` and `global-pause` are dropped at the orchestrator, but
**both** `global-restart` (soft restart) and hard reload are always
permitted: the readiness gate exempts `global-restart`, and `handleHardReload`
performs the reload with no readiness check at all. -/
theorem c6_group_gating (banners : List Banner) (ready : Finset String)
    (gid : String) (hg : findLargestGroupId banners = some gid)
    (hnr : allInGroupReady banners ready gid = false) :
    handleGlobalAction banners ready "global-play" = none
    ∧ handleGlobalAction banners ready "global-pause" = none
    ∧ handleGlobalAction banners ready "global-restart"
        = some ("global-restart", gid)
    ∧ handleHardReload banners = some gid := by
  refine ⟨?_, ?_, ?_, ?_⟩
  · simp only [handleGlobalAction, hg]
    rw [if_pos ⟨by simp [hnr], by decide⟩]
  · simp only [handleGlobalAction, hg]
    rw [if_pos ⟨by simp [hnr], by decide⟩]
  · simp only [handleGlobalAction, hg]
    rw [if_neg (by simp)]
  · simp only [handleHardReload, hg]

/-- C6 witness: the amended gating at a concrete two-member group with one
member not ready. -/
theorem c6_group_gating_witness :
    handleGlobalAction
      [⟨"b1", "u", 1, 1, 0, 0, some "G1", none⟩,
       ⟨"b2", "u", 1, 1, 0, 0, some "G1", none⟩] {"b1"} "global-play" = none
    ∧ handleGlobalAction
      [⟨"b1", "u", 1, 1, 0, 0, some "G1", none⟩,
       ⟨"b2", "u", 1, 1, 0, 0, some "G1", none⟩] {"b1"} "global-pause" = none
    ∧ handleGlobalAction
      [⟨"b1", "u", 1, 1, 0, 0, some "G1", none⟩,
       ⟨"b2", "u", 1, 1, 0, 0, some "G1", none⟩] {"b1"} "global-restart"
        = some ("global-restart", "G1")
    ∧ handleHardReload
      [⟨"b1", "u", 1, 1, 0, 0, some "G1", none⟩,
       ⟨"b2", "u", 1, 1, 0, 0, some "G1", none⟩] = some "G1" :=
  c6_group_gating
    [⟨"b1", "u", 1, 1, 0, 0, some "G1", none⟩,
     ⟨"b2", "u", 1, 1, 0, 0, some "G1", none⟩] {"b1"} "G1"
    (by decide) (by decide)

/-- C2 counterexample: the claim asserts the single pending command is
executed exactly once, immediately after `ready`, with its own parameters.
A queued `captureScreenshot` refutes it.  Poll-path discovery (first run):
the slot holds only the `{action, bannerId, groupId}` triple, and the
replay's `window.event.data` read throws inside the interval tick
(`window.event` is undefined there), before `html2canvas` runs — the trace
after discovery is just pause + `ready`, the capture is executed **zero**
times, and the slot is **still occupied** (the clear after the replay was
skipped).  Message-path discovery (second run): the replay runs inside the
new message's listener, so it launches the capture with the **new** event's
(absent) width/height instead of the queued command's own `300×250` —
re-fetched state, not the command's own parameters. -/
theorem c2_discovery_queueing_cx :
    (runAgent "b" "g"
        [.msg false ⟨some "captureScreenshot", some "b", none, some 300, some 250⟩,
         .poll true]).pending
      = some ⟨"captureScreenshot", some "b", none⟩
    ∧ (runAgent "b" "g"
        [.msg false ⟨some "captureScreenshot", some "b", none, some 300, some 250⟩,
         .poll true]).out
      = [.mtPause, .postReady "b"]
    ∧ (runAgent "b" "g"
        [.msg false ⟨some "captureScreenshot", some "b", none, some 300, some 250⟩,
         .msg true ⟨some "play", some "b", none, none, none⟩]).out
      = [.mtPause, .postReady "b", .startCapture "b" none none,
         .mtPlay, .postPlayPause "b" true] := by
  refine ⟨?_, ?_, ?_⟩ <;> decide

/-- C2 (amended): commands delivered before discovery land in the one-slot
`lastReceivedAction` variable — last writer wins (only the
`{action, bannerId, groupId}` triple is stored), nothing is dispatched and
no `ready` is emitted yet — and the discovery tick replays exactly the most
recent command's stored triple, entering dispatch once, immediately after
the pause and the scoped `ready`.  For a non-capture command the replay
runs to completion with the command's own stored fields and the slot is
cleared.  For a queued capture command, a poll-tick replay reads
`window.event.data` with no ambient event: it throws before any effect —
the capture is never executed and the slot is never cleared. -/
theorem c2_discovery_queueing (BID GID : String) (ms : List CmdMsg)
    (m : CmdMsg) (hlast : ms.getLast? = some m)
    (hact : ∀ x ∈ ms, x.action ≠ none ∧ x.action ≠ some "") :
    (runAgent BID GID (preMsgs ms)).pending = some m.toCmd
    ∧ (runAgent BID GID (preMsgs ms)).dispatched = []
    ∧ readyCount (runAgent BID GID (preMsgs ms)).out = 0
    ∧ (agentStep BID GID (runAgent BID GID (preMsgs ms)) (.poll true)).dispatched
        = [m.toCmd]
    ∧ readyCount
        (agentStep BID GID (runAgent BID GID (preMsgs ms)) (.poll true)).out = 1
    ∧ (isCaptureCmd BID m.toCmd = false →
        (agentStep BID GID (runAgent BID GID (preMsgs ms)) (.poll true)).pending
            = none
        ∧ (agentStep BID GID (runAgent BID GID (preMsgs ms)) (.poll true)).out
            = .mtPause :: .postReady BID
                :: (indivOps BID m.toCmd ++ groupOps GID m.toCmd))
    ∧ (isCaptureCmd BID m.toCmd = true →
        (agentStep BID GID (runAgent BID GID (preMsgs ms)) (.poll true)).pending
            = some m.toCmd
        ∧ (agentStep BID GID (runAgent BID GID (preMsgs ms)) (.poll true)).out
            = [.mtPause, .postReady BID]) := by
  have hne : ms ≠ [] := by
    intro h
    rw [h] at hlast
    exact absurd hlast (by simp)
  have hrun : runAgent BID GID (preMsgs ms)
      = { ({} : AgentState) with pending := (ms.getLast?).map CmdMsg.toCmd } :=
    run_msgs_queue BID GID ms hact hne {} rfl
  rw [hlast] at hrun
  have hrun2 : runAgent BID GID (preMsgs ms)
      = { ({} : AgentState) with pending := some m.toCmd } := hrun
  have hstep : agentStep BID GID
      { ({} : AgentState) with pending := some m.toCmd } (.poll true)
      = (if isCaptureCmd BID m.toCmd
         then ⟨true, some m.toCmd, false, [m.toCmd], [.mtPause, .postReady BID]⟩
         else ⟨true, none, false, [m.toCmd],
               .mtPause :: .postReady BID
                 :: (indivOps BID m.toCmd ++ groupOps GID m.toCmd)⟩) := by
    by_cases hcap : isCaptureCmd BID m.toCmd = true
    · simp [agentStep, discoverNow, execCmd, hcap]
    · simp [agentStep, discoverNow, execCmd, hcap]
  rw [hrun2, hstep]
  refine ⟨rfl, rfl, rfl, ?_, ?_, ?_, ?_⟩
  · split
    · rfl
    · rfl
  · split
    · rfl
    · rw [show AgentOp.mtPause :: AgentOp.postReady BID
            :: (indivOps BID m.toCmd ++ groupOps GID m.toCmd)
          = [AgentOp.mtPause, AgentOp.postReady BID]
              ++ (indivOps BID m.toCmd ++ groupOps GID m.toCmd) from rfl,
          readyCount_append, readyCount_append, indivOps_no_ready, groupOps_no_ready]
      rfl
  · intro hcap
    rw [if_neg (by simp [hcap])]
    exact ⟨rfl, rfl⟩
  · intro hcap
    rw [if_pos hcap]
    exact ⟨rfl, rfl⟩

/-- C2 witness: a `play` then a `pause` message delivered while no timeline
is available; after the discovery tick, only the `pause` (the most recent)
is dispatched, once, right after the pause-on-discovery and the `ready`
post, with its own stored fields, and the slot is cleared. -/
theorem c2_discovery_queueing_witness :
    (runAgent "b" "g" (preMsgs
        [⟨some "play", some "b", none, none, none⟩,
         ⟨some "pause", some "b", none, none, none⟩])).pending
      = some ⟨"pause", some "b", none⟩
    ∧ (runAgent "b" "g" (preMsgs
        [⟨some "play", some "b", none, none, none⟩,
         ⟨some "pause", some "b", none, none, none⟩])).dispatched = []
    ∧ (agentStep "b" "g" (runAgent "b" "g" (preMsgs
        [⟨some "play", some "b", none, none, none⟩,
         ⟨some "pause", some "b", none, none, none⟩])) (.poll true)).dispatched
      = [⟨"pause", some "b", none⟩]
    ∧ (agentStep "b" "g" (runAgent "b" "g" (preMsgs
        [⟨some "play", some "b", none, none, none⟩,
         ⟨some "pause", some "b", none, none, none⟩])) (.poll true)).pending
      = none
    ∧ (agentStep "b" "g" (runAgent "b" "g" (preMsgs
        [⟨some "play", some "b", none, none, none⟩,
         ⟨some "pause", some "b", none, none, none⟩])) (.poll true)).out
      = .mtPause :: .postReady "b"
          :: (indivOps "b" ⟨"pause", some "b", none⟩
                ++ groupOps "g" ⟨"pause", some "b", none⟩) := by
  have h := c2_discovery_queueing "b" "g"
    [⟨some "play", some "b", none, none, none⟩,
     ⟨some "pause", some "b", none, none, none⟩]
    ⟨some "pause", some "b", none, none, none⟩ (by decide) (by decide)
  obtain ⟨h1, h2, -, h4, -, h6, -⟩ := h
  obtain ⟨h6a, h6b⟩ := h6 (by decide)
  exact ⟨h1, h2, h4, h6a, h6b⟩

/-- C5: across any event sequence the agent posts `bannerReady` at most
once (the first-discovery block is guarded by the once-set `masterTimeline`
variable); and at the first poll tick that finds a timeline, the interval
is stopped, the timeline is paused at once, and the `ready` event scoped to
this creative's id is posted directly after the pause. -/
theorem c5_first_discovery (BID GID : String) :
    (∀ evs : List AgentEvent, readyCount (runAgent BID GID evs).out ≤ 1)
    ∧ (∀ s : AgentState, s.discovered = false → s.pollActive = true →
        (agentStep BID GID s (.poll true)).discovered = true
        ∧ (agentStep BID GID s (.poll true)).pollActive = false
        ∧ ∃ tail, (agentStep BID GID s (.poll true)).out
            = s.out ++ .mtPause :: .postReady BID :: tail) := by
  constructor
  · intro evs
    have h := foldl_ready_inv BID GID evs {} rfl
    rw [show runAgent BID GID evs = evs.foldl (agentStep BID GID) {} from rfl, h]
    split <;> omega
  · intro s hd hp
    have hstep : agentStep BID GID s (.poll true)
        = (discoverNow BID GID none true s).1 := by
      simp only [agentStep]
      rw [if_pos hp]
    obtain ⟨h1, h2, tail, ht, -⟩ := discoverNow_fire BID GID none true s ⟨rfl, hd⟩
    rw [hstep]
    refine ⟨h1, h2, tail, ?_⟩
    rw [ht]
    simp [List.append_assoc]

/-- C5 witness: the invariant applied to a concrete run with two successful
polls (still a single `ready`), and the first-discovery effects at the
initial state. -/
theorem c5_first_discovery_witness :
    readyCount (runAgent "b" "g" [.poll false, .poll true, .poll true]).out ≤ 1
    ∧ (agentStep "b" "g" {} (.poll true)).discovered = true
    ∧ (agentStep "b" "g" {} (.poll true)).pollActive = false :=
  ⟨(c5_first_discovery "b" "g").1 [.poll false, .poll true, .poll true],
   ((c5_first_discovery "b" "g").2 {} rfl rfl).1,
   ((c5_first_discovery "b" "g").2 {} rfl rfl).2.1⟩

/-- C7: the group offered global controls is the one with the largest
member count among the (truthy) group ids present, ties resolved in favour
of the group whose first member appears earliest in the creative list; with
no grouped creative at all, no group is offered controls.  (Group ids in
this app are UUIDs, hence never the empty string — the JS-truthiness
boundary case — which the hypothesis `hne` records.) -/
theorem c7_largest_group (banners : List Banner)
    (hne : ∀ b ∈ banners, b.groupId ≠ some "") :
    ((∀ b ∈ banners, b.groupId = none) → findLargestGroupId banners = none)
    ∧ (∀ g : String, findLargestGroupId banners = some g →
        0 < groupCount banners g
        ∧ (∀ g', groupCount banners g' ≤ groupCount banners g)
        ∧ (∀ g', g' ≠ g → groupCount banners g' = groupCount banners g →
            firstIdx banners g < firstIdx banners g'))
    ∧ ((∃ b ∈ banners, b.groupId ≠ none) →
        (findLargestGroupId banners).isSome = true) := by
  obtain ⟨hnd, hval, hpres, hord⟩ := groupCounts_inv banners hne
  refine ⟨?_, ?_, ?_⟩
  · intro hall
    cases banners with
    | nil => rfl
    | cons b0 rest =>
      have hcounts : groupCounts (b0 :: rest) = [] :=
        groupCounts_of_all_none _ hall
      show ((groupCounts (b0 :: rest)).foldl pickStep (none, 0)).1 = none
      rw [hcounts]
      rfl
  · intro g hg
    cases banners with
    | nil => simp [findLargestGroupId] at hg
    | cons b0 rest =>
      have hres : ((groupCounts (b0 :: rest)).foldl pickStep (none, 0)).1 = some g := hg
      obtain ⟨ha, hbnd, hc⟩ := pick_spec (groupCounts (b0 :: rest)) (none, 0)
      rcases hc with heq | ⟨pre, p, post, hsplit, h1, h2, h3, h4, h5⟩
      · rw [heq] at hres
        simp at hres
      · have hp1 : p.1 = g := by
          rw [h1] at hres
          exact Option.some.inj hres
        have hpmem : p ∈ groupCounts (b0 :: rest) := by
          rw [hsplit]
          exact List.mem_append_right _ (List.mem_cons_self _ _)
        have hpv : p.2 = groupCount (b0 :: rest) p.1 := hval p hpmem
        have hposg : 0 < groupCount (b0 :: rest) g := by
          have h3' : 0 < p.2 := h3
          rw [hpv, hp1] at h3'
          exact h3'
        refine ⟨hposg, ?_, ?_⟩
        · intro g'
          by_cases hk : g' ∈ (groupCounts (b0 :: rest)).map Prod.fst
          · obtain ⟨q, hq, hq1⟩ := List.mem_map.mp hk
            have hqv : groupCount (b0 :: rest) g' = q.2 := by
              rw [← hq1]
              exact (hval q hq).symm
            have hb2 := hbnd q hq
            rw [h2] at hb2
            rw [hqv, ← hp1, ← hpv]
            exact hb2
          · have h0 : groupCount (b0 :: rest) g' = 0 := by
              by_contra hpos
              exact hk ((hpres g').mpr (Nat.pos_of_ne_zero hpos))
            rw [h0]
            exact Nat.zero_le _
        · intro g' hgg hcnt
          have hposg' : 0 < groupCount (b0 :: rest) g' := by
            rw [hcnt]
            exact hposg
          obtain ⟨q, hq, hq1⟩ := List.mem_map.mp ((hpres g').mpr hposg')
          have hqv : q.2 = groupCount (b0 :: rest) g' := by
            rw [← hq1]
            exact hval q hq
          rw [hsplit] at hq
          rcases List.mem_append.mp hq with hqpre | hqrest
          · have hlt := h4 q hqpre
            have heq2 : q.2 = p.2 := by
              rw [hqv, hcnt, ← hp1, ← hpv]
            omega
          · rcases List.mem_cons.mp hqrest with hqp | hqpost
            · exact absurd (by rw [← hq1, hqp, hp1]) hgg
            · have hordp := hord
              rw [hsplit, List.pairwise_append] at hordp
              have hpp := hordp.2.1
              rw [List.pairwise_cons] at hpp
              have := hpp.1 q hqpost
              rw [hp1, hq1] at this
              exact this
  · rintro ⟨b, hbmem, hbg⟩
    cases banners with
    | nil => exact absurd hbmem (List.not_mem_nil b)
    | cons b0 rest =>
      obtain ⟨g2, hg2⟩ : ∃ g2, b.groupId = some g2 := by
        cases hbb : b.groupId with
        | none => exact absurd hbb hbg
        | some g2 => exact ⟨g2, rfl⟩
      have hpos : 0 < groupCount (b0 :: rest) g2 :=
        (groupCount_pos_iff _ _).mpr ⟨b, hbmem, hg2⟩
      obtain ⟨q, hq, hq1⟩ := List.mem_map.mp ((hpres g2).mpr hpos)
      obtain ⟨ha, hbnd, hc⟩ := pick_spec (groupCounts (b0 :: rest)) (none, 0)
      have hqv : 0 < q.2 := by
        rw [hval q hq, hq1]
        exact hpos
      have hres2 : 0 < ((groupCounts (b0 :: rest)).foldl pickStep (none, 0)).2 :=
        lt_of_lt_of_le hqv (hbnd q hq)
      rcases hc with heq | ⟨pre, p, post, hsplit, h1, h2, h3, h4, h5⟩
      · rw [heq] at hres2
        simp at hres2
      · show (((groupCounts (b0 :: rest)).foldl pickStep (none, 0)).1).isSome = true
        rw [h1]
        rfl

/-- C7 witness: the tie between groups `G2` (count 2, first member at
index 0) and `G1` (count 2, first member at index 1) is resolved in favour
of the first-seen `G2`. -/
theorem c7_largest_group_witness :
    0 < groupCount
        [⟨"b1", "u", 1, 1, 0, 0, some "G2", none⟩,
         ⟨"b2", "u", 1, 1, 0, 0, some "G1", none⟩,
         ⟨"b3", "u", 1, 1, 0, 0, some "G1", none⟩,
         ⟨"b4", "u", 1, 1, 0, 0, some "G2", none⟩] "G2"
    ∧ groupCount
        [⟨"b1", "u", 1, 1, 0, 0, some "G2", none⟩,
         ⟨"b2", "u", 1, 1, 0, 0, some "G1", none⟩,
         ⟨"b3", "u", 1, 1, 0, 0, some "G1", none⟩,
         ⟨"b4", "u", 1, 1, 0, 0, some "G2", none⟩] "G1"
      ≤ groupCount
        [⟨"b1", "u", 1, 1, 0, 0, some "G2", none⟩,
         ⟨"b2", "u", 1, 1, 0, 0, some "G1", none⟩,
         ⟨"b3", "u", 1, 1, 0, 0, some "G1", none⟩,
         ⟨"b4", "u", 1, 1, 0, 0, some "G2", none⟩] "G2"
    ∧ firstIdx
        [⟨"b1", "u", 1, 1, 0, 0, some "G2", none⟩,
         ⟨"b2", "u", 1, 1, 0, 0, some "G1", none⟩,
         ⟨"b3", "u", 1, 1, 0, 0, some "G1", none⟩,
         ⟨"b4", "u", 1, 1, 0, 0, some "G2", none⟩] "G2"
      < firstIdx
        [⟨"b1", "u", 1, 1, 0, 0, some "G2", none⟩,
         ⟨"b2", "u", 1, 1, 0, 0, some "G1", none⟩,
         ⟨"b3", "u", 1, 1, 0, 0, some "G1", none⟩,
         ⟨"b4", "u", 1, 1, 0, 0, some "G2", none⟩] "G1" := by
  have h := (c7_largest_group
    [⟨"b1", "u", 1, 1, 0, 0, some "G2", none⟩,
     ⟨"b2", "u", 1, 1, 0, 0, some "G1", none⟩,
     ⟨"b3", "u", 1, 1, 0, 0, some "G1", none⟩,
     ⟨"b4", "u", 1, 1, 0, 0, some "G2", none⟩] (by decide)).2.1 "G2" (by decide)
  exact ⟨h.1, h.2.1 "G1", h.2.2 "G1" (by decide) (by decide)⟩

/-- C9: every delegated capture settles exactly once: to the first
correlated `screenshotCaptured`/`screenshotFailed` delivered before the
10-second deadline, and to the timeout rejection when none arrives in
time; messages after the deadline (or after settling) have no effect, and
the capture never hangs (`settled` is always `some`). -/
theorem c9_capture_timeout (bid : String) (pre post : List CapMsg) :
    (runCapture bid pre post).settled
      = some ((firstOutcome bid pre).getD
          (.rejected "Screenshot request timed out."))
    ∧ (runCapture bid pre post).settleOps = 1 := by
  unfold runCapture
  rw [cap_pre_run]
  cases h : firstOutcome bid pre with
  | none =>
    have ht : capStepTimeout {}
        = { listening := false, timeoutArmed := false,
            settled := some (.rejected "Screenshot request timed out."),
            settleOps := 1 } := by
      unfold capStepTimeout
      rw [if_pos rfl]
      rfl
    rw [ht, cap_frozen_foldl bid post _ rfl]
    exact ⟨rfl, rfl⟩
  | some o =>
    have ht : capStepTimeout
        { listening := false, timeoutArmed := false,
          settled := some o, settleOps := 1 }
        = { listening := false, timeoutArmed := false,
            settled := some o, settleOps := 1 } := by
      unfold capStepTimeout
      rw [if_neg (by simp)]
    rw [ht, cap_frozen_foldl bid post _ rfl]
    exact ⟨rfl, rfl⟩

end BannerBoard
